import Mathlib

/-!
Verification development for the `centia-io/mcp-server` repository.

The program (`src/index.ts`, newest variant) turns an OpenAPI-style API
description into MCP tools and dispatches tool invocations back into HTTP
requests.  This file gives a shallow embedding of the relevant functions:

* `resolveSchema`   (source lines 33-71)   — reference/composition resolution,
* `sanitizeSchemaForMCP` (source lines 74-133) — numeric/annotation cleanup,
* `normalizeJsonSchemaForMCP` (source lines 136-261) — allow-list normalization,
* the tool-generation loop body (source lines 266-339),
* the `CallToolRequestSchema` handler (source lines 345-428).

JavaScript values are modelled by the inductive type `Json` below; JS objects
are association lists with unique keys (object-literal construction and
assignment are modelled by `objSetF`, which preserves key uniqueness, so all
objects the program builds have no duplicate keys).  JS `undefined` is the
`Json.undef` constructor; property access on a non-object yields `undef`
(matching `?.`-style access used by the source on possibly-absent values).
JS numbers (IEEE doubles) are modelled as NaN, signed infinity, or a rational:
the program only ever inspects finiteness and magnitude versus
`Number.MAX_SAFE_INTEGER`, and every finite double is a rational, so this
abstraction is exact for the behaviour under verification.

The source's recursive functions are embedded with an explicit fuel parameter
that decreases on every recursive call, so that every definition is a
structural recursion the kernel can evaluate.  `none` / fuel exhaustion means
the call tree is deeper than the supplied fuel; for inputs on which the
JavaScript recursion terminates, a large enough fuel computes its value.
-/

/-- JavaScript number: NaN, ±Infinity, or a finite value (every finite IEEE
double is a rational number). -/
inductive JsNum where
  | nan : JsNum
  | inf (neg : Bool) : JsNum
  | fin (q : Rat) : JsNum
deriving DecidableEq, Repr

/-- `Number.MAX_SAFE_INTEGER` = 2^53 - 1. -/
def maxSafeInteger : Rat := 9007199254740991

/-- `Number.isFinite`. -/
def JsNum.isFinite : JsNum → Bool
  | .fin _ => true
  | _ => false

/-- JavaScript value (JSON extended with `undefined`). -/
inductive Json where
  | undef : Json
  | null : Json
  | bool (b : Bool) : Json
  | num (n : JsNum) : Json
  | str (s : String) : Json
  | arr (elems : List Json) : Json
  | obj (fields : List (String × Json)) : Json
deriving Repr

/-- JS truthiness: `undefined`, `null`, `false`, `0`, `NaN` and `""` are falsy;
every object and array is truthy. -/
def jsTruthy : Json → Bool
  | .undef => false
  | .null => false
  | .bool b => b
  | .num .nan => false
  | .num (.fin q) => q != 0
  | .num (.inf _) => true
  | .str s => s != ""
  | .arr _ => true
  | .obj _ => true

def Json.isUndef : Json → Bool
  | .undef => true
  | _ => false

/-- First-occurrence lookup in an object's field list; `undef` when the key is
absent (JS objects never have duplicate keys, so first = only occurrence). -/
def jsGetF : List (String × Json) → String → Json
  | [], _ => .undef
  | (k', v) :: t, k => if k' = k then v else jsGetF t k

/-- `k in o`: key presence (a key present with value `undefined` counts). -/
def hasKeyF : List (String × Json) → String → Bool
  | [], _ => false
  | (k', _) :: t, k => k' = k || hasKeyF t k

/-- JS property assignment `o[k] = v`: overwrite in place if the key exists,
otherwise append (JS objects keep insertion order). -/
def objSetF : List (String × Json) → String → Json → List (String × Json)
  | [], k, v => [(k, v)]
  | (k', v') :: t, k, v => if k' = k then (k, v) :: t else (k', v') :: objSetF t k v

/-- JS `delete o[k]`.  JS objects have unique keys; removing every occurrence
coincides with removing the one occurrence. -/
def eraseKeyF : List (String × Json) → String → List (String × Json)
  | [], _ => []
  | (k', v') :: t, k => if k' = k then eraseKeyF t k else (k', v') :: eraseKeyF t k

/-- Keys of an object, in order (`Object.keys`). -/
def keysF (fs : List (String × Json)) : List String := fs.map Prod.fst

/-- Fold a list of entries into an object by repeated assignment.  This models
object-literal construction loops (`const o = {}; ... o[k] = v ...`). -/
def buildFields (acc : List (String × Json)) : List (String × Json) → List (String × Json)
  | [] => acc
  | (k, v) :: t => buildFields (objSetF acc k v) t

/-- Object spread `{...o}` of a field list (collapses any duplicate keys the
way a JS object would never exhibit them). -/
def cloneFields (fs : List (String × Json)) : List (String × Json) := buildFields [] fs

/-- Object spread `{...a, ...b}`: keys of `a` in order with `b`'s value where
`b` also has the key, then keys of `b` not in `a`, in `b`'s order. -/
def spreadMergeF (a b : List (String × Json)) : List (String × Json) :=
  a.map (fun kv => if hasKeyF b kv.1 then (kv.1, jsGetF b kv.1) else kv)
    ++ b.filter (fun kv => !hasKeyF a kv.1)

/-- JS property access `j[k]` as used by the source: field lookup on objects,
index lookup on arrays, `undefined` otherwise (the source only dereferences
non-objects behind truthiness guards or optional chaining). -/
def jsGet : Json → String → Json
  | .obj fs, k => jsGetF fs k
  | .arr xs, k =>
    match k.toNat? with
    | some i => xs.getD i .undef
    | none => .undef
  | _, _ => (.undef)

/-- `SameValueZero`, the equality used by `new Set(...)`: value equality on
primitives (with `NaN` equal to itself), reference equality on objects and
arrays — two structurally equal but distinct objects are different set
members, so object values never collapse here. -/
def sameValueZero : Json → Json → Bool
  | .undef, .undef => true
  | .null, .null => true
  | .bool a, .bool b => a = b
  | .num a, .num b => a = b
  | .str a, .str b => a = b
  | _, _ => false

/-- `[...new Set(l)]`: keep the first occurrence of each element, in order. -/
def dedupFirstBy (eq : Json → Json → Bool) : List Json → List Json
  | [] => []
  | x :: t => x :: ((dedupFirstBy eq t).filter (fun y => !eq x y))

/-- `Object.entries` as used by the source: an object's own entries, or an
array's index-keyed entries (`typeof [] === "object"`). -/
def entriesOf : Json → List (String × Json)
  | .obj fs => fs
  | .arr xs => (xs.enum.map (fun p => (toString p.1, p.2)))
  | _ => []

/-- `typeof v === "object"` for a non-null value: objects and arrays. -/
def isObjectTypeof : Json → Bool
  | .obj _ => true
  | .arr _ => true
  | _ => false

/-- Strict string comparison `v === "s"`. -/
def isStrEq : Json → String → Bool
  | .str s, t => s = t
  | _, _ => false

/-- The banned numeric check of `sanitizeSchemaForMCP` (source line 95-96):
the value is a number and `!Number.isFinite(v) || Math.abs(v) > MAX_SAFE_INTEGER`. -/
def isBadNum : Json → Bool
  | .num .nan => true
  | .num (.inf _) => true
  | .num (.fin q) => |q| > maxSafeInteger
  | _ => false

/-! ### String helpers (JS `String.prototype.replace`, `split`, URI encoding) -/

/-- `pat` is an initial segment of `l`. -/
def startsWithL : List Char → List Char → Bool
  | _, [] => true
  | [], _ :: _ => false
  | c :: t, p :: ps => c = p && startsWithL t ps

/-- JS `String.prototype.replace` with a plain-string pattern replaces only the
FIRST occurrence (contrast Lean's `String.replace`, which replaces all). -/
def replaceOnceL (pat rep : List Char) : List Char → List Char
  | [] => if startsWithL [] pat then rep else []
  | c :: t =>
    if startsWithL (c :: t) pat then rep ++ (c :: t).drop pat.length
    else c :: replaceOnceL pat rep t

def replaceOnceS (s pat rep : String) : String :=
  String.mk (replaceOnceL pat.data rep.data s.data)

/-- `split` on a single separator character (JS `"".split(sep)` is `[""]`). -/
def splitOnCharList (sep : Char) : List Char → List (List Char)
  | [] => [[]]
  | c :: t =>
    let r := splitOnCharList sep t
    if c = sep then [] :: r
    else
      match r with
      | [] => [[c]]
      | h :: t' => (c :: h) :: t'

/-- JS `s.split("/")`. -/
def jsSplitSlash (s : String) : List String :=
  (splitOnCharList '/' s.data).map String.mk

def hexDigitUpper (n : Nat) : Char :=
  if n < 10 then Char.ofNat (48 + n) else Char.ofNat (55 + n)

def hexDigitLower (n : Nat) : Char :=
  if n < 10 then Char.ofNat (48 + n) else Char.ofNat (87 + n)

/-- UTF-8 bytes of a character (percent-encoding operates on these). -/
def utf8Bytes (c : Char) : List Nat :=
  let n := c.toNat
  if n < 128 then [n]
  else if n < 2048 then [192 + n / 64, 128 + n % 64]
  else if n < 65536 then [224 + n / 4096, 128 + (n / 64) % 64, 128 + n % 64]
  else [240 + n / 262144, 128 + (n / 4096) % 64, 128 + (n / 64) % 64, 128 + n % 64]

/-- Characters `encodeURIComponent` leaves intact: alphanumerics and
`- _ . ! ~ * ' ( )`. -/
def isUnreservedURI (c : Char) : Bool :=
  c.isAlphanum || c ∈ ['-', '_', '.', '!', '~', '*', Char.ofNat 39, '(', ')']

def percentEncodeChar (c : Char) : List Char :=
  ((utf8Bytes c).map (fun b => ['%', hexDigitUpper (b / 16), hexDigitUpper (b % 16)])).flatten

def encodeURIComponent (s : String) : String :=
  String.mk ((s.data.map (fun c => if isUnreservedURI c then [c] else percentEncodeChar c)).flatten)

/-- `String(v)` on a JS number.  A finite non-integer double prints in decimal
notation in JS; such values do not occur in the verified statements, so they
are rendered via `Rat`'s representation here. -/
def jsNumToString : JsNum → String
  | .nan => "NaN"
  | .inf neg => if neg then "-Infinity" else "Infinity"
  | .fin q => if q.den = 1 then toString q.num else toString q

/-- Array elements under `Array.prototype.toString`: `null`/`undefined` become
empty, objects become `[object Object]`.  (A nested array joins recursively in
JS; nested arrays do not occur in the verified statements.) -/
def arrElemToString : Json → String
  | .undef => ""
  | .null => ""
  | .bool b => if b then "true" else "false"
  | .num n => jsNumToString n
  | .str s => s
  | .arr _ => ""
  | .obj _ => "[object Object]"

/-- JS `String(v)` as used by the dispatcher on path and header arguments. -/
def jsToString : Json → String
  | .undef => "undefined"
  | .null => "null"
  | .bool b => if b then "true" else "false"
  | .num n => jsNumToString n
  | .str s => s
  | .arr xs => String.intercalate "," (xs.map arrElemToString)
  | .obj _ => "[object Object]"

/-! ### `JSON.stringify(v, null, 2)` -/

def spacesN (n : Nat) : String := String.mk (List.replicate n ' ')

def escapeJsonChar (c : Char) : List Char :=
  if c = '"' then ['\\', '"']
  else if c = '\\' then ['\\', '\\']
  else if c = Char.ofNat 10 then ['\\', 'n']
  else if c = Char.ofNat 13 then ['\\', 'r']
  else if c = Char.ofNat 9 then ['\\', 't']
  else if c = Char.ofNat 8 then ['\\', 'b']
  else if c = Char.ofNat 12 then ['\\', 'f']
  else if c.toNat < 32 then
    ['\\', 'u', '0', '0', hexDigitLower (c.toNat / 16), hexDigitLower (c.toNat % 16)]
  else [c]

def jsonQuote (s : String) : String :=
  "\"" ++ String.mk ((s.data.map escapeJsonChar).flatten) ++ "\""

/-- Number literal in JSON output: non-finite numbers serialize as `null`. -/
def jsonNumLit : JsNum → String
  | .nan => "null"
  | .inf _ => "null"
  | .fin q => if q.den = 1 then toString q.num else toString q

/-- `JSON.stringify(v, null, 2)` at indentation level `ind`, with fuel.
Returns `none` for `undefined` (JS `JSON.stringify(undefined)` is
`undefined`); object entries whose value serializes to `none` are skipped,
array elements serializing to `none` print as `null`. -/
def stringify2 : Nat → Nat → Json → Option String
  | 0, _, _ => none
  | _ + 1, _, .undef => none
  | _ + 1, _, .null => some "null"
  | _ + 1, _, .bool b => some (if b then "true" else "false")
  | _ + 1, _, .num n => some (jsonNumLit n)
  | _ + 1, _, .str s => some (jsonQuote s)
  | _ + 1, _, .arr [] => some "[]"
  | f + 1, ind, .arr (x :: xs) =>
    some ("[\n"
      ++ String.intercalate ",\n"
          ((x :: xs).map (fun e => spacesN (ind + 2) ++ ((stringify2 f (ind + 2) e).getD "null")))
      ++ "\n" ++ spacesN ind ++ "]")
  | f + 1, ind, .obj fs =>
    let items := fs.filterMap (fun kv =>
      (stringify2 f (ind + 2) kv.2).map
        (fun sv => spacesN (ind + 2) ++ jsonQuote kv.1 ++ ": " ++ sv))
    if items.isEmpty then some "\x7b\x7d"
    else some ("\x7b\n" ++ String.intercalate ",\n" items ++ "\n" ++ spacesN ind ++ "\x7d")

/-! ### Schema resolver (source lines 33-71)

`resolveSchema` follows `$ref` chains through the API description; nothing in
the source bounds that recursion, so the embedding carries explicit fuel:
`none` means the call tree is deeper than the given fuel. -/

/-- The permissive placeholder `{ type: "string" }` (source lines 34, 41). -/
def strPlaceholder : Json := Json.obj [("type", Json.str "string")]

/-- Walk `apiSpec` along the slash-separated reference path (source lines
37-44): any segment whose value is falsy aborts the walk. -/
def walkRefPath : Json → List String → Option Json
  | cur, [] => some cur
  | cur, seg :: rest =>
    if jsTruthy (jsGet cur seg) then walkRefPath (jsGet cur seg) rest else none

/-- The `allOf` merge loop (source lines 48-57): starting from
`{type:"object", properties:{}, required:[]}`, spread-merge each resolved
branch's `properties` and set-union its `required`. -/
def allOfFold (res : Json → Option Json) :
    List Json → List (String × Json) → List Json → Option Json
  | [], props, req =>
    some (Json.obj [("type", Json.str "object"),
                    ("properties", Json.obj props),
                    ("required", Json.arr req)])
  | b :: rest, props, req =>
    match res b with
    | none => none
    | some r =>
      let props' :=
        if jsTruthy (jsGet r "properties") then
          match jsGet r "properties" with
          | .obj pfs => spreadMergeF props pfs
          | _ => props
        else props
      let req' :=
        if jsTruthy (jsGet r "required") then
          match jsGet r "required" with
          | .arr q => dedupFirstBy sameValueZero (req ++ q)
          | _ => req
        else req
      allOfFold res rest props' req'

/-- The property-resolution loop of the object case (source lines 61-64). -/
def resolvePropsFold (res : Json → Option Json) :
    List (String × Json) → List (String × Json) → Option (List (String × Json))
  | [], acc => some acc
  | (k, v) :: rest, acc =>
    match res v with
    | none => none
    | some rv => resolvePropsFold res rest (objSetF acc k rv)

/-- `resolveSchema` (source lines 33-71).  A non-string `$ref` or a non-array
`allOf` would throw in JS (`.replace` / `for..of` on an unsuitable value);
those inputs are outside the modelled scope and mapped to the placeholder. -/
def resolveSchema (spec : Json) : Nat → Json → Option Json
  | 0, _ => none
  | fuel + 1, schema =>
    if !jsTruthy schema then some strPlaceholder
    else if jsTruthy (jsGet schema "$ref") then
      match jsGet schema "$ref" with
      | .str s =>
        match walkRefPath spec (jsSplitSlash (replaceOnceS s "#/" "")) with
        | none => some strPlaceholder
        | some cur => resolveSchema spec fuel cur
      | _ => some strPlaceholder
    else if jsTruthy (jsGet schema "allOf") then
      match jsGet schema "allOf" with
      | .arr branches => allOfFold (resolveSchema spec fuel) branches [] []
      | _ => some strPlaceholder
    else if isStrEq (jsGet schema "type") "object" && jsTruthy (jsGet schema "properties") then
      match resolvePropsFold (resolveSchema spec fuel) (entriesOf (jsGet schema "properties")) [] with
      | none => none
      | some newProps =>
        some (Json.obj (objSetF (cloneFields (entriesOf schema)) "properties" (Json.obj newProps)))
    else if isStrEq (jsGet schema "type") "array" && jsTruthy (jsGet schema "items") then
      match resolveSchema spec fuel (jsGet schema "items") with
      | none => none
      | some ri => some (Json.obj (objSetF (cloneFields (entriesOf schema)) "items" ri))
    else some schema

/-! ### Schema sanitizer (source lines 74-133)

`sanitizeSchemaForMCP` is staged into one definition per source block so each
behaviour can be reasoned about separately; the stages are applied in source
order on the spread-clone of the node. -/

/-- The numeric-checked keywords, in source order (source lines 83-92). -/
def numericCheckKeys : List String :=
  ["example", "default", "maximum", "minimum", "exclusiveMaximum",
   "exclusiveMinimum", "multipleOf", "const"]

/-- The always-dropped annotation keywords (source line 103). -/
def annotDropKeys : List String :=
  ["example", "examples", "deprecated", "readOnly", "writeOnly", "xml",
   "style", "explode", "nullable"]

/-- Source lines 94-100: delete each numeric-checked keyword whose value is a
number that is non-finite or exceeds the safe-integer magnitude (the
`!== undefined` and `typeof === "number"` guards are folded into `isBadNum`). -/
def sanNumericStage (c : List (String × Json)) : List (String × Json) :=
  numericCheckKeys.foldl (fun c k => if isBadNum (jsGetF c k) then eraseKeyF c k else c) c

/-- Source lines 103-105: unconditionally drop the annotation keywords. -/
def sanAnnotStage (c : List (String × Json)) : List (String × Json) :=
  annotDropKeys.foldl (fun c k => if hasKeyF c k then eraseKeyF c k else c) c

/-- Source lines 107-112: filter out-of-range numbers from `enum`; drop an
emptied `enum`. -/
def sanEnumStage (c : List (String × Json)) : List (String × Json) :=
  match jsGetF c "enum" with
  | .arr es =>
    let es' := es.filter (fun v => !isBadNum v)
    if es'.isEmpty then eraseKeyF c "enum" else objSetF c "enum" (.arr es')
  | _ => c

/-- Source lines 114-120: rebuild `properties` with each value recursively
sanitized (guarded by truthiness and `typeof === "object"`). -/
def sanPropsStage (rec1 : Json → Json) (c : List (String × Json)) : List (String × Json) :=
  let p := jsGetF c "properties"
  if jsTruthy p && isObjectTypeof p then
    objSetF c "properties"
      (.obj (buildFields [] ((entriesOf p).map (fun kv => (kv.1, rec1 kv.2)))))
  else c

/-- Source lines 122-124: recursively sanitize a truthy `items`. -/
def sanItemsStage (rec1 : Json → Json) (c : List (String × Json)) : List (String × Json) :=
  if jsTruthy (jsGetF c "items") then objSetF c "items" (rec1 (jsGetF c "items")) else c

/-- Source lines 126-130: map sanitize over array-valued composition keys. -/
def sanCompsStage (rec1 : Json → Json) (c : List (String × Json)) : List (String × Json) :=
  ["allOf", "anyOf", "oneOf"].foldl (fun c k =>
    match jsGetF c k with
    | .arr xs => objSetF c k (.arr (xs.map rec1))
    | _ => c) c

/-- `sanitizeSchemaForMCP` (source lines 74-133).  Fuel exhaustion returns the
input unchanged; the JS recursion terminates on every (finite) value, so any
fuel at least the value's depth computes the JS result. -/
def sanitizeSchemaForMCP : Nat → Json → Json
  | 0, j => j
  | f + 1, j =>
    match j with
    | .arr xs => .arr (xs.map (sanitizeSchemaForMCP f))
    | .obj fs =>
      .obj (sanCompsStage (sanitizeSchemaForMCP f)
             (sanItemsStage (sanitizeSchemaForMCP f)
               (sanPropsStage (sanitizeSchemaForMCP f)
                 (sanEnumStage (sanAnnotStage (sanNumericStage (cloneFields fs)))))))
    | other => other

/-! ### Schema normalizer (source lines 136-261), staged like the sanitizer -/

/-- The structural-keyword allow-list (source lines 141-169). -/
def allowedKeysList : List String :=
  ["type", "properties", "required", "description", "enum", "items",
   "anyOf", "oneOf", "allOf", "const", "default", "minimum", "maximum",
   "exclusiveMinimum", "exclusiveMaximum", "multipleOf", "minLength",
   "maxLength", "pattern", "format", "minItems", "maxItems", "uniqueItems",
   "contains", "additionalProperties", "patternProperties", "title"]

/-- The valid-type set (source line 189). -/
def validTypesList : List String :=
  ["string", "number", "integer", "boolean", "object", "array", "null"]

/-- The format whitelist (source lines 171-180). -/
def formatKeepList : List String :=
  ["email", "uri", "uuid", "ipv4", "ipv6", "date-time", "date", "time"]

def isValidTypeJ : Json → Bool
  | .str s => validTypesList.contains s
  | _ => false

def Json.isStr : Json → Bool
  | .str _ => true
  | _ => false

/-- Source lines 182-186: keep only allow-listed keys. -/
def normFilterStage (fs : List (String × Json)) : List (String × Json) :=
  fs.foldl (fun acc kv => if allowedKeysList.contains kv.1 then objSetF acc kv.1 kv.2 else acc) []

/-- Source lines 188-198: filter an array-valued `type` to valid names
(dropping it when emptied); drop an invalid scalar `type`. -/
def normTypeStage (r : List (String × Json)) : List (String × Json) :=
  let t := jsGetF r "type"
  if t.isUndef then r
  else
    match t with
    | .arr ts =>
      let ft := ts.filter isValidTypeJ
      if ft.isEmpty then eraseKeyF r "type" else objSetF r "type" (.arr ft)
    | _ => if isValidTypeJ t then r else eraseKeyF r "type"

/-- Source lines 200-203: drop a string `format` outside the whitelist. -/
def normFormatStage (r : List (String × Json)) : List (String × Json) :=
  match jsGetF r "format" with
  | .str s => if formatKeepList.contains s then r else eraseKeyF r "format"
  | _ => r

/-- Source lines 205-213: keep `required` only as a de-duplicated non-empty
list of strings. -/
def normRequiredStage (r : List (String × Json)) : List (String × Json) :=
  let rq := jsGetF r "required"
  if jsTruthy rq then
    match rq with
    | .arr es =>
      let ss := es.filter Json.isStr
      if ss.isEmpty then eraseKeyF r "required"
      else objSetF r "required" (.arr (dedupFirstBy sameValueZero ss))
    | _ => eraseKeyF r "required"
  else r

/-- Source lines 216-224: rebuild `properties` with each value sanitized then
normalized, skipping falsy results; drop an emptied `properties`. -/
def normPropsStage (rec1 : Json → Json) (r : List (String × Json)) : List (String × Json) :=
  let p := jsGetF r "properties"
  if jsTruthy p && isObjectTypeof p then
    let np := (entriesOf p).foldl (fun acc kv =>
      let nv := rec1 kv.2
      if jsTruthy nv then objSetF acc kv.1 nv else acc) []
    if np.isEmpty then eraseKeyF (objSetF r "properties" (.obj np)) "properties"
    else objSetF r "properties" (.obj np)
  else r

/-- Source lines 226-229: sanitize-then-normalize a truthy `items`, deleting
the key if the result is `undefined`. -/
def normItemsStage (rec1 : Json → Json) (r : List (String × Json)) : List (String × Json) :=
  let it := jsGetF r "items"
  if jsTruthy it then
    let ni := rec1 it
    if ni.isUndef then eraseKeyF (objSetF r "items" ni) "items"
    else objSetF r "items" ni
  else r

/-- Source lines 231-238: map sanitize-then-normalize over array-valued
composition keys, filter out falsy results, drop an emptied list. -/
def normCompsStage (rec1 : Json → Json) (r : List (String × Json)) : List (String × Json) :=
  ["anyOf", "oneOf", "allOf"].foldl (fun c k =>
    match jsGetF c k with
    | .arr xs =>
      let ys := (xs.map rec1).filter jsTruthy
      if ys.isEmpty then eraseKeyF (objSetF c k (.arr ys)) k else objSetF c k (.arr ys)
    | _ => c) r

/-- Source lines 240-244: de-duplicate a truthy array `enum`; drop it when
emptied. -/
def normEnumStage (r : List (String × Json)) : List (String × Json) :=
  let e := jsGetF r "enum"
  if jsTruthy e then
    match e with
    | .arr es =>
      let u := dedupFirstBy sameValueZero es
      if u.isEmpty then eraseKeyF r "enum" else objSetF r "enum" (.arr u)
    | _ => r
  else r

/-- The constraining keywords of the fallback check (source lines 247-255). -/
def hasConstraintKeys : List String :=
  ["type", "enum", "const", "anyOf", "oneOf", "allOf", "properties", "items"]

/-- Source lines 246-258: a node with no constraining keyword defaults to
`type: "string"`. -/
def normFallbackStage (r : List (String × Json)) : List (String × Json) :=
  if hasConstraintKeys.any (fun k => !(jsGetF r k).isUndef) then r
  else objSetF r "type" (.str "string")

/-- `normalizeJsonSchemaForMCP` (source lines 136-261).  Fuel exhaustion
returns `undefined` (the recursion sites all treat an `undefined` result as an
absent schema); any fuel at least the value's depth computes the JS result. -/
def normalizeJsonSchemaForMCP : Nat → Json → Json
  | 0, _ => .undef
  | f + 1, j =>
    match j with
    | .undef => .undef
    | .null => .undef
    | .arr xs => .arr (xs.map (normalizeJsonSchemaForMCP f))
    | .obj fs =>
      .obj (normFallbackStage
             (normEnumStage
               (normCompsStage (fun v => normalizeJsonSchemaForMCP f (sanitizeSchemaForMCP f v))
                 (normItemsStage (fun v => normalizeJsonSchemaForMCP f (sanitizeSchemaForMCP f v))
                   (normPropsStage (fun v => normalizeJsonSchemaForMCP f (sanitizeSchemaForMCP f v))
                     (normRequiredStage
                       (normFormatStage
                         (normTypeStage
                           (normFilterStage fs)))))))))
    | other => other

/-! ### Tool generation (source lines 263-339)

The body of the double loop over the API description's paths and methods,
modelled as a function of one operation.  `ToolMeta` is the Routing Record;
`McpTool` is the generated tool. -/

/-- The per-tool routing metadata `toolMeta` (source lines 278-286). -/
structure ToolMeta where
  method : String
  path : String
  pathParams : List String
  queryParams : List String
  headerParams : List String
  bodyParams : List String
  isBodyFlattened : Bool
deriving Repr, DecidableEq

/-- The generated tool (source lines 327-335). -/
structure McpTool where
  name : String
  description : String
  inputSchema : Json
deriving Repr

/-- Mutable state of the parameter loop: `properties`, `required`, and the
three location buckets of `toolMeta`. -/
structure ParamAcc where
  props : List (String × Json)
  required : List Json
  pathP : List String
  queryP : List String
  headerP : List String
deriving Repr

def initParamAcc : ParamAcc := ⟨[], [], [], [], []⟩

/-- Object spread `{...j}` of an arbitrary value: fields of an object, index
entries of an array, nothing for primitives (spreading a string would
contribute index keys; string-valued spreads do not occur here). -/
def spreadOf (j : Json) : List (String × Json) := cloneFields (entriesOf j)

/-- One iteration of the parameter loop (source lines 289-304).  The parameter
name is coerced to a property key with `String(...)` (JS computed keys);
`required` and the buckets receive the name as pushed by the source. -/
def processParam (spec : Json) (f : Nat) (acc : ParamAcc) (param : Json) : Option ParamAcc :=
  match (if jsTruthy (jsGet param "$ref") then resolveSchema spec f param else some param) with
  | none => none
  | some rp =>
    match resolveSchema spec f (jsGet rp "schema") with
    | none => none
    | some ps =>
      let np := normalizeJsonSchemaForMCP f (sanitizeSchemaForMCP f ps)
      let pname := jsToString (jsGet rp "name")
      let desc := if jsTruthy (jsGet rp "description") then jsGet rp "description"
                  else jsGet np "description"
      let prop := Json.obj (objSetF (spreadOf np) "description" desc)
      let inJ := jsGet rp "in"
      some { props := objSetF acc.props pname prop
             required := if jsTruthy (jsGet rp "required")
                         then acc.required ++ [jsGet rp "name"] else acc.required
             pathP := if isStrEq inJ "path" then acc.pathP ++ [pname] else acc.pathP
             queryP := if isStrEq inJ "query" then acc.queryP ++ [pname] else acc.queryP
             headerP := if isStrEq inJ "header" then acc.headerP ++ [pname] else acc.headerP }

/-- The parameter loop (source lines 289-304). -/
def processParams (spec : Json) (f : Nat) : ParamAcc → List Json → Option ParamAcc
  | acc, [] => some acc
  | acc, p :: rest =>
    match processParam spec f acc p with
    | none => none
    | some acc' => processParams spec f acc' rest

/-- `x || []` for a parameter list; a truthy non-array would make the spread
throw in JS and is outside the modelled scope. -/
def jsArrElems : Json → List Json
  | .arr xs => xs
  | _ => []

/-- Result of the request-body block (source lines 307-325). -/
structure BodyOut where
  props : List (String × Json)
  required : List Json
  bodyParams : List String
  isBodyFlattened : Bool

/-- The request-body block (source lines 307-325).  A truthy non-array
`bodySchema.required` would make the spread throw in JS; outside scope. -/
def processBody (spec : Json) (f : Nat) (op : Json) (acc : ParamAcc) : Option BodyOut :=
  let rbody := jsGet op "requestBody"
  let bRaw := jsGet (jsGet (jsGet rbody "content") "application/json") "schema"
  if jsTruthy bRaw then
    match resolveSchema spec f bRaw with
    | none => none
    | some bs =>
      if isStrEq (jsGet bs "type") "object" && jsTruthy (jsGet bs "properties") then
        let entries := entriesOf (jsGet bs "properties")
        some { props := entries.foldl (fun pr kv =>
                 objSetF pr kv.1 (normalizeJsonSchemaForMCP f (sanitizeSchemaForMCP f kv.2))) acc.props
               required := acc.required ++ (match jsGet bs "required" with
                 | .arr q => q
                 | _ => [])
               bodyParams := entries.map (fun kv => kv.1)
               isBodyFlattened := true }
      else
        some { props := objSetF acc.props "requestBody"
                 (normalizeJsonSchemaForMCP f (sanitizeSchemaForMCP f bs))
               required := acc.required ++ (if jsTruthy (jsGet rbody "required")
                 then [Json.str "requestBody"] else [])
               bodyParams := ["requestBody"]
               isBodyFlattened := false }
  else
    some { props := acc.props, required := acc.required,
           bodyParams := [], isBodyFlattened := false }

/-- `\W`-or-slash characters of the synthesized name are replaced by `_`
(source line 270); `_` itself is a word character. -/
def wordCharOr_ (c : Char) : Char := if c.isAlphanum || c = '_' then c else '_'

def synthOpId (method pathStr : String) : String :=
  method ++ String.mk (pathStr.data.map wordCharOr_)

/-- `op.description || op.summary || Execute ...` (source line 329). -/
def descrOf (op : Json) (method pathStr : String) : String :=
  if jsTruthy (jsGet op "description") then jsToString (jsGet op "description")
  else if jsTruthy (jsGet op "summary") then jsToString (jsGet op "summary")
  else "Execute " ++ method.toUpper ++ " " ++ pathStr

/-- One iteration of the tool-generation loop (source lines 267-338): produce
the `Tool` and its Routing Record for one `(path, method, operation)`. -/
def genToolForOp (spec : Json) (f : Nat) (pathStr method : String) (pathItem op : Json) :
    Option (McpTool × ToolMeta) :=
  let params := jsArrElems (jsGet pathItem "parameters") ++ jsArrElems (jsGet op "parameters")
  match processParams spec f initParamAcc params with
  | none => none
  | some acc =>
    match processBody spec f op acc with
    | none => none
    | some b =>
      let opId := if jsTruthy (jsGet op "operationId") then jsToString (jsGet op "operationId")
                  else synthOpId method pathStr
      let inputSchema := Json.obj
        ([("type", Json.str "object"), ("properties", Json.obj b.props)]
          ++ (if b.required.length > 0
              then [("required", Json.arr (dedupFirstBy sameValueZero b.required))]
              else []))
      some ({ name := opId, description := descrOf op method pathStr,
              inputSchema := inputSchema },
            { method := method, path := pathStr,
              pathParams := acc.pathP, queryParams := acc.queryP,
              headerParams := acc.headerP, bodyParams := b.bodyParams,
              isBodyFlattened := b.isBodyFlattened })

/-! ### Dispatcher (source lines 345-428) -/

/-- The outgoing HTTP request assembled by the handler: axios `config` plus
the substituted `url`.  `body` is `undef` when `config.data` is never set. -/
structure HttpRequest where
  method : String
  url : String
  headers : List (String × String)
  qparams : List (String × Json)
  body : Json
deriving Repr

/-- String-keyed assignment for header maps. -/
def setAssoc {α : Type} : List (String × α) → String → α → List (String × α)
  | [], k, v => [(k, v)]
  | (k', v') :: t, k, v => if k' = k then (k, v) :: t else (k', v') :: setAssoc t k v

/-- Source lines 360-362: attach the bearer header when a token is configured
(an unset or empty environment variable is falsy). -/
def authHeaders (token : String) : List (String × String) :=
  if token ≠ "" then [("Authorization", "Bearer " ++ token)] else []

/-- `const safeArgs = args || {}` (source line 364). -/
def safeArgsOf (args : Json) : Json := if jsTruthy args then args else Json.obj []

/-- The path-parameter substitution loop (source lines 367-374): a present
argument replaces the first occurrence of `{p}` URL-encoded; an absent one
removes the first occurrence of `/{p}` and then of `{p}`. -/
def substPathParams (safeArgs : Json) (url : String) (pathParams : List String) : String :=
  pathParams.foldl (fun u p =>
    if !(jsGet safeArgs p).isUndef then
      replaceOnceS u ("\x7b" ++ p ++ "\x7d") (encodeURIComponent (jsToString (jsGet safeArgs p)))
    else
      replaceOnceS (replaceOnceS u ("/\x7b" ++ p ++ "\x7d") "") ("\x7b" ++ p ++ "\x7d") "") url

/-- Request assembly of the handler (source lines 353-403). -/
def buildRequest (baseUrl token : String) (meta : ToolMeta) (args : Json) : HttpRequest :=
  let safeArgs := safeArgsOf args
  { method := meta.method
    url := substPathParams safeArgs (baseUrl ++ meta.path) meta.pathParams
    headers := meta.headerParams.foldl (fun h p =>
      if !(jsGet safeArgs p).isUndef then setAssoc h p (jsToString (jsGet safeArgs p)) else h)
      (authHeaders token)
    qparams := meta.queryParams.foldl (fun q p =>
      if !(jsGet safeArgs p).isUndef then setAssoc q p (jsGet safeArgs p) else q) []
    body := if meta.bodyParams.length > 0 then
        if meta.isBodyFlattened then
          Json.obj (meta.bodyParams.foldl (fun b p =>
            if !(jsGet safeArgs p).isUndef then objSetF b p (jsGet safeArgs p) else b) [])
        else jsGet safeArgs "requestBody"
      else Json.undef }

/-- What the handler does before the HTTP call: throw on an unknown tool name
(source lines 349-351), otherwise assemble the request. -/
inductive DispatchOutcome where
  | thrown (msg : String)
  | call (req : HttpRequest)
deriving Repr

/-- Process-wide dispatch context: base URL, token, and the `operationMap`
lookup table built by the generation loop. -/
structure DispatchCtx where
  baseUrl : String
  token : String
  ops : List (String × ToolMeta)

/-- `operationMap.get(name)`. -/
def lookupMeta : List (String × ToolMeta) → String → Option ToolMeta
  | [], _ => none
  | (n, m) :: t, name => if n = name then some m else lookupMeta t name

/-- The `CallToolRequestSchema` handler up to the HTTP boundary (source lines
345-403). -/
def dispatch (ctx : DispatchCtx) (name : String) (args : Json) : DispatchOutcome :=
  match lookupMeta ctx.ops name with
  | none => .thrown ("Tool not found: " ++ name)
  | some meta => .call (buildRequest ctx.baseUrl ctx.token meta args)

/-- Outcome of the HTTP call at the axios boundary: a response value, or an
error with a message and the optional structured response body
(`error.response?.data`, `undef` when there is none). -/
inductive HttpOutcome where
  | success (data : Json)
  | failure (message : String) (respData : Json)

/-- The handler's result: MCP content of one text item, with the error flag
(absent on success, modelled as `false`). -/
structure ToolCallResult where
  isError : Bool
  text : Json
deriving Repr

/-- Mapping the HTTP outcome to the tool-call result (source lines 405-427):
success pretty-prints the response body; failure returns an error-flagged
result carrying the stringified structured body when one is truthy, else the
raw error message. -/
def handleHttpOutcome (f : Nat) : HttpOutcome → ToolCallResult
  | .success d =>
    { isError := false
      text := match stringify2 f 0 d with
        | some s => .str s
        | none => .undef }
  | .failure msg rd =>
    { isError := true
      text := if jsTruthy rd then
          (match stringify2 f 0 rd with
           | some s => .str s
           | none => .undef)
        else .str msg }

/-! ### Spec-side predicates and concrete instances used by the claims -/

/-- A cyclic API description: `components.schemas.A` refers to itself.  The
OpenAPI format does not forbid this shape. -/
def cyclicSpec : Json :=
  Json.obj [("components", Json.obj [("schemas", Json.obj
    [("A", Json.obj [("$ref", Json.str "#/components/schemas/A")])])])]

/-- The self-referential schema node of `cyclicSpec`. -/
def cyclicRef : Json := Json.obj [("$ref", Json.str "#/components/schemas/A")]

/-- Validity of a `type` value as the spec states it: absent, a valid type
name, or an array of valid type names. -/
def typeValueOk : Json → Bool
  | .undef => true
  | .str s => validTypesList.contains s
  | .arr ts => ts.all isValidTypeJ
  | _ => false

/-- The normalization invariant, following the spec's words but restricted to
the nodes the normalizer rebuilds: the node's own keys are allow-listed and
its `type` is valid, recursively through `properties` values, `items`, and
array-valued composition lists.  (Nodes copied verbatim under other allowed
keywords — e.g. `additionalProperties` — are not constrained; the full claim
over those fails, see the counterexample.)  The depth bound `g` makes the
check executable; the property holding for every `g` is the unbounded
invariant. -/
def mcpAllowedB : Nat → Json → Bool
  | 0, _ => true
  | g + 1, j =>
    match j with
    | .obj fs =>
      (keysF fs).all (fun k => allowedKeysList.contains k)
      && typeValueOk (jsGetF fs "type")
      && (match jsGetF fs "properties" with
          | .obj pf => pf.all (fun kv => mcpAllowedB g kv.2)
          | _ => true)
      && mcpAllowedB g (jsGetF fs "items")
      && (match jsGetF fs "anyOf" with
          | .arr xs => xs.all (mcpAllowedB g)
          | _ => true)
      && (match jsGetF fs "oneOf" with
          | .arr xs => xs.all (mcpAllowedB g)
          | _ => true)
      && (match jsGetF fs "allOf" with
          | .arr xs => xs.all (mcpAllowedB g)
          | _ => true)
    | .arr xs => xs.all (mcpAllowedB g)
    | _ => true

/-- Counterexample node for the unrestricted allow-list claim: a schema whose
`additionalProperties` value carries a key outside the allow-list. -/
def c4Node : Json :=
  Json.obj [("additionalProperties", Json.obj [("foo", Json.num (.fin 1))])]

/-- Spec-side description of the `allOf` property merge: the value of `k` in
the merged properties is the value from the LAST branch whose properties
contain `k` (later branches override earlier ones), starting from `start`. -/
def specMergeLookup (start : Json) (branchProps : List (List (String × Json))) (k : String) : Json :=
  branchProps.foldl (fun acc p => if hasKeyF p k then jsGetF p k else acc) start

/-- Declared data of one operation parameter, as the spec speaks of it:
its name, location, and required flag. -/
structure PDecl where
  pname : String
  ploc : String
  preq : Bool

/-- The parameter `param` of the operation resolves (within fuel `f`) to an
object declaring exactly `d`: name `d.pname`, location `d.ploc`, required flag
`d.preq`, with a resolvable schema. -/
def paramOK (spec : Json) (f : Nat) (param : Json) (d : PDecl) : Prop :=
  ∃ rp, (if jsTruthy (jsGet param "$ref") then resolveSchema spec f param else some param) = some rp
    ∧ jsGet rp "name" = Json.str d.pname
    ∧ jsGet rp "in" = Json.str d.ploc
    ∧ jsTruthy (jsGet rp "required") = d.preq
    ∧ (∃ ps, resolveSchema spec f (jsGet rp "schema") = some ps)

/-- The declared parameter list of an operation (source line 272). -/
def paramsOfOp (pathItem op : Json) : List Json :=
  jsArrElems (jsGet pathItem "parameters") ++ jsArrElems (jsGet op "parameters")

/-- The request-body schema position the generator inspects (source line 307). -/
def bodyRawOf (op : Json) : Json :=
  jsGet (jsGet (jsGet (jsGet op "requestBody") "content") "application/json") "schema"

/-- Key presence on a JS value (`false` off objects). -/
def hasKeyJ : Json → String → Bool
  | .obj fs, k => hasKeyF fs k
  | _, _ => false

/-- Key accumulation of repeated object assignment: append the key when new. -/
def appendNewKey (ks : List String) (k : String) : List String :=
  if ks.contains k then ks else ks ++ [k]

/-- All argument names the Routing Record routes anywhere. -/
def routedNames (meta : ToolMeta) : List String :=
  meta.pathParams ++ meta.queryParams ++ meta.headerParams ++ meta.bodyParams

/-- The keys of a generated tool's input-schema `properties`. -/
def propKeysOfTool (t : McpTool) : List String :=
  match jsGet t.inputSchema "properties" with
  | .obj pf => keysF pf
  | _ => []

def lbrace : Char := Char.ofNat 123

/-! Concrete instances for counterexamples and witnesses. -/

/-- A dispatch context with an empty lookup table. -/
def ctxEmpty : DispatchCtx := ⟨"https://api.centia.io", "", []⟩

/-- A parameter named `x` at location `loc`. -/
def pNamedX (loc : String) : Json := Json.obj
  [("name", Json.str "x"), ("in", Json.str loc),
   ("schema", Json.obj [("type", Json.str "string")]), ("required", Json.bool true)]

/-- An operation declaring the same name `x` once in `path` and once in
`query`. -/
def c2op : Json := Json.obj [("parameters", Json.arr [pNamedX "path", pNamedX "query"])]

/-- The routing buckets and schema-property keys produced for `c2op`. -/
def c2outcome : Option (List String × List String × List String) :=
  (genToolForOp (Json.obj []) 3 "/a" "get" (Json.obj []) c2op).map
    (fun r => (r.2.pathParams, r.2.queryParams, propKeysOfTool r.1))

/-- A node carrying a finite (in-range) `example` and an unrelated keyword. -/
def c7Node : Json := Json.obj [("example", Json.num (.fin 5)), ("title", Json.str "t")]

/-- The 404 scenario's structured error body. -/
def rd404 : Json := Json.obj [("message", Json.str "not found")]

/-- A parameter named `nm` at location `loc`, with a given required flag. -/
def pNamed (nm loc : String) (req : Bool) : Json := Json.obj
  [("name", Json.str nm), ("in", Json.str loc),
   ("schema", Json.obj [("type", Json.str "string")]), ("required", Json.bool req)]

/-- Witness operation for the generation claims: a required path parameter
`id`, an optional query parameter `q`, and a required header parameter `h`. -/
def wGenOp : Json := Json.obj [("parameters", Json.arr
  [pNamed "id" "path" true, pNamed "q" "query" false, pNamed "h" "header" true])]

/-- Witness `allOf` branches: overlapping property `b` and overlapping
required name `a`. -/
def wAllOfNode : Json := Json.obj [("allOf", Json.arr
  [Json.obj [("type", Json.str "object"),
             ("properties", Json.obj [("a", Json.obj [("type", Json.str "string")]),
                                      ("b", Json.obj [("type", Json.str "number")])]),
             ("required", Json.arr [Json.str "a"])],
   Json.obj [("type", Json.str "object"),
             ("properties", Json.obj [("b", Json.obj [("type", Json.str "integer")])]),
             ("required", Json.arr [Json.str "a", Json.str "b"])]])]

/-- Witness Routing Record: one parameter of each location plus a flattened
body field. -/
def wMeta : ToolMeta :=
  { method := "post", path := "/items/\x7bid\x7d", pathParams := ["id"],
    queryParams := ["q"], headerParams := ["h"], bodyParams := ["name"],
    isBodyFlattened := true }

/-- Two argument maps agreeing on all routed names of `wMeta` but differing on
the unrouted name `extra`. -/
def wArgs1 : Json := Json.obj
  [("id", Json.num (.fin 7)), ("q", Json.str "a"), ("h", Json.str "v"),
   ("name", Json.str "n"), ("extra", Json.str "one")]

def wArgs2 : Json := Json.obj
  [("id", Json.num (.fin 7)), ("q", Json.str "a"), ("h", Json.str "v"),
   ("name", Json.str "n"), ("extra", Json.str "two")]

/-- The two branches of `wAllOfNode`, and their properties lists. -/
def wB1 : Json := Json.obj [("type", Json.str "object"),
  ("properties", Json.obj [("a", Json.obj [("type", Json.str "string")]),
                           ("b", Json.obj [("type", Json.str "number")])]),
  ("required", Json.arr [Json.str "a"])]

def wB2 : Json := Json.obj [("type", Json.str "object"),
  ("properties", Json.obj [("b", Json.obj [("type", Json.str "integer")])]),
  ("required", Json.arr [Json.str "a", Json.str "b"])]

def wPf1 : List (String × Json) :=
  [("a", Json.obj [("type", Json.str "string")]), ("b", Json.obj [("type", Json.str "number")])]

def wPf2 : List (String × Json) := [("b", Json.obj [("type", Json.str "integer")])]

/-- One step of `normCompsStage`: the processing of a single composition key.
`normCompsStage` is the left fold of this step over `["anyOf", "oneOf",
"allOf"]`. -/
def compStep (rec1 : Json → Json) (c : List (String × Json)) (k : String) :
    List (String × Json) :=
  match jsGetF c k with
  | .arr xs =>
    let ys := (xs.map rec1).filter jsTruthy
    if ys.isEmpty then eraseKeyF (objSetF c k (.arr ys)) k else objSetF c k (.arr ys)
  | _ => c

/-- The `properties` conjunct of `mcpAllowedB`, as a named function. -/
def propsCheckB (g : Nat) (j : Json) : Bool :=
  match j with
  | .obj pf => pf.all (fun kv => mcpAllowedB g kv.2)
  | _ => true

/-- The composition-list conjunct of `mcpAllowedB`, as a named function. -/
def compCheckB (g : Nat) (j : Json) : Bool :=
  match j with
  | .arr xs => xs.all (mcpAllowedB g)
  | _ => true

/-! ### Basic lemmas about the object operations -/

theorem jsGetF_objSetF_self (fs : List (String × Json)) (k : String) (v : Json) :
    jsGetF (objSetF fs k v) k = v := by
  induction fs with
  | nil => simp [objSetF, jsGetF]
  | cons kv t ih =>
    obtain ⟨k', v'⟩ := kv
    by_cases h : k' = k <;> simp [objSetF, jsGetF, h, ih]

theorem jsGetF_objSetF_ne (fs : List (String × Json)) (k k' : String) (v : Json)
    (h : k' ≠ k) : jsGetF (objSetF fs k' v) k = jsGetF fs k := by
  induction fs with
  | nil => simp [objSetF, jsGetF, h]
  | cons kv t ih =>
    obtain ⟨k'', v''⟩ := kv
    by_cases h2 : k'' = k' <;> by_cases h3 : k'' = k <;>
      simp_all [objSetF, jsGetF]

theorem hasKeyF_objSetF_self (fs : List (String × Json)) (k : String) (v : Json) :
    hasKeyF (objSetF fs k v) k = true := by
  induction fs with
  | nil => simp [objSetF, hasKeyF]
  | cons kv t ih =>
    obtain ⟨k', v'⟩ := kv
    by_cases h : k' = k <;> simp [objSetF, hasKeyF, h, ih]

theorem hasKeyF_objSetF_ne (fs : List (String × Json)) (k k' : String) (v : Json)
    (h : k' ≠ k) : hasKeyF (objSetF fs k' v) k = hasKeyF fs k := by
  induction fs with
  | nil => simp [objSetF, hasKeyF, h]
  | cons kv t ih =>
    obtain ⟨k'', v''⟩ := kv
    by_cases h2 : k'' = k' <;> by_cases h3 : k'' = k <;>
      simp_all [objSetF, hasKeyF]

theorem jsGetF_eraseKeyF_self (fs : List (String × Json)) (k : String) :
    jsGetF (eraseKeyF fs k) k = .undef := by
  induction fs with
  | nil => simp [eraseKeyF, jsGetF]
  | cons kv t ih =>
    obtain ⟨k', v'⟩ := kv
    by_cases h : k' = k <;> simp [eraseKeyF, jsGetF, h, ih]

theorem hasKeyF_eraseKeyF_self (fs : List (String × Json)) (k : String) :
    hasKeyF (eraseKeyF fs k) k = false := by
  induction fs with
  | nil => simp [eraseKeyF, hasKeyF]
  | cons kv t ih =>
    obtain ⟨k', v'⟩ := kv
    by_cases h : k' = k <;> simp [eraseKeyF, hasKeyF, h, ih]

theorem jsGetF_eraseKeyF_ne (fs : List (String × Json)) (k k' : String)
    (h : k' ≠ k) : jsGetF (eraseKeyF fs k') k = jsGetF fs k := by
  induction fs with
  | nil => simp [eraseKeyF, jsGetF]
  | cons kv t ih =>
    obtain ⟨k'', v''⟩ := kv
    by_cases h2 : k'' = k' <;> by_cases h3 : k'' = k <;>
      simp_all [eraseKeyF, jsGetF]

theorem hasKeyF_eraseKeyF_ne (fs : List (String × Json)) (k k' : String)
    (h : k' ≠ k) : hasKeyF (eraseKeyF fs k') k = hasKeyF fs k := by
  induction fs with
  | nil => simp [eraseKeyF, hasKeyF]
  | cons kv t ih =>
    obtain ⟨k'', v''⟩ := kv
    by_cases h2 : k'' = k' <;> by_cases h3 : k'' = k <;>
      simp_all [eraseKeyF, hasKeyF]

theorem hasKeyF_iff_mem_keysF (fs : List (String × Json)) (k : String) :
    hasKeyF fs k = true ↔ k ∈ keysF fs := by
  induction fs with
  | nil => simp [hasKeyF, keysF]
  | cons kv t ih =>
    obtain ⟨k', v'⟩ := kv
    simp only [hasKeyF, keysF, List.map_cons, List.mem_cons, Bool.or_eq_true,
      decide_eq_true_eq, ih]
    exact or_congr eq_comm Iff.rfl

theorem keysF_objSetF (fs : List (String × Json)) (k : String) (v : Json) :
    keysF (objSetF fs k v) = appendNewKey (keysF fs) k := by
  induction fs with
  | nil => simp [objSetF, keysF, appendNewKey]
  | cons kv t ih =>
    obtain ⟨k', v'⟩ := kv
    by_cases h : k' = k
    · subst h
      simp [objSetF, keysF, appendNewKey, List.contains_cons]
    · have hne : (k == k') = false := by simp [Ne.symm h]
      simp only [objSetF, if_neg h, keysF, List.map_cons]
      have ihk : List.map Prod.fst (objSetF t k v) = appendNewKey (List.map Prod.fst t) k := ih
      rw [ihk]
      unfold appendNewKey
      simp only [List.contains_cons, hne, Bool.false_or]
      by_cases h2 : (List.map Prod.fst t).contains k = true
      · rw [if_pos h2, if_pos h2]
      · rw [if_neg h2, if_neg h2, List.cons_append]

theorem mem_keysF_eraseKeyF (fs : List (String × Json)) (k k' : String)
    (h : k ∈ keysF (eraseKeyF fs k')) : k ∈ keysF fs := by
  have hh := (hasKeyF_iff_mem_keysF _ k).mpr h
  by_cases h2 : k' = k
  · subst h2
    rw [hasKeyF_eraseKeyF_self] at hh
    cases hh
  · rw [hasKeyF_eraseKeyF_ne _ _ _ h2] at hh
    exact (hasKeyF_iff_mem_keysF _ k).mp hh

theorem eraseKeyF_of_not_hasKey (fs : List (String × Json)) (k : String)
    (h : hasKeyF fs k = false) : eraseKeyF fs k = fs := by
  induction fs with
  | nil => simp [eraseKeyF]
  | cons kv t ih =>
    obtain ⟨k', v'⟩ := kv
    simp [hasKeyF] at h
    simp [eraseKeyF, h.1, ih h.2]

theorem objSetF_of_not_hasKey (fs : List (String × Json)) (k : String) (v : Json)
    (h : hasKeyF fs k = false) : objSetF fs k v = fs ++ [(k, v)] := by
  induction fs with
  | nil => simp [objSetF]
  | cons kv t ih =>
    obtain ⟨k', v'⟩ := kv
    simp [hasKeyF] at h
    simp [objSetF, h.1, ih h.2]

theorem hasKeyF_append (a b : List (String × Json)) (k : String) :
    hasKeyF (a ++ b) k = (hasKeyF a k || hasKeyF b k) := by
  induction a with
  | nil => simp [hasKeyF]
  | cons kv t ih =>
    obtain ⟨k', v'⟩ := kv
    by_cases h : k' = k <;> simp [hasKeyF, h, ih]

theorem jsGetF_append (a b : List (String × Json)) (k : String) :
    jsGetF (a ++ b) k = if hasKeyF a k then jsGetF a k else jsGetF b k := by
  induction a with
  | nil => simp [hasKeyF, jsGetF]
  | cons kv t ih =>
    obtain ⟨k', v'⟩ := kv
    by_cases h : k' = k <;> simp [hasKeyF, jsGetF, h, ih]

theorem buildFields_eq_append (fs : List (String × Json)) :
    ∀ acc, (keysF fs).Nodup → (∀ k ∈ keysF fs, hasKeyF acc k = false) →
    buildFields acc fs = acc ++ fs := by
  induction fs with
  | nil => intro acc _ _; simp [buildFields]
  | cons kv t ih =>
    intro acc hnd hdisj
    obtain ⟨k, v⟩ := kv
    simp only [keysF, List.map_cons, List.nodup_cons] at hnd
    have hk : hasKeyF acc k = false := hdisj k (List.mem_cons_self _ _)
    have step : objSetF acc k v = acc ++ [(k, v)] := objSetF_of_not_hasKey acc k v hk
    simp only [buildFields, step]
    rw [ih (acc ++ [(k, v)]) hnd.2]
    · simp
    · intro k' hk'
      rw [hasKeyF_append]
      have h1 : hasKeyF acc k' = false := hdisj k' (List.mem_cons_of_mem _ hk')
      have h2 : k ≠ k' := by
        intro h; exact hnd.1 (h ▸ hk')
      simp [h1, hasKeyF, h2]

theorem cloneFields_eq_self (fs : List (String × Json)) (h : (keysF fs).Nodup) :
    cloneFields fs = fs := by
  have := buildFields_eq_append fs [] h (by intro k _; rfl)
  simpa [cloneFields] using this

/-! ### Lemmas about set-style de-duplication -/

theorem sameValueZero_eq {a b : Json} (h : sameValueZero a b = true) : a = b := by
  cases a <;> cases b <;> simp_all [sameValueZero]

theorem mem_dedupFirstBy_svz (l : List Json) (a : Json) :
    a ∈ dedupFirstBy sameValueZero l ↔ a ∈ l := by
  induction l with
  | nil => simp [dedupFirstBy]
  | cons x t ih =>
    simp only [dedupFirstBy, List.mem_cons]
    constructor
    · rintro (rfl | h)
      · exact Or.inl rfl
      · exact Or.inr (ih.mp (List.mem_filter.mp h).1)
    · rintro (rfl | h)
      · exact Or.inl rfl
      · by_cases hx : sameValueZero x a = true
        · exact Or.inl (sameValueZero_eq hx).symm
        · exact Or.inr (List.mem_filter.mpr ⟨ih.mpr h, by simp [hx]⟩)

theorem pairwise_dedupFirstBy_svz (l : List Json) :
    (dedupFirstBy sameValueZero l).Pairwise (fun a b => sameValueZero a b = false) := by
  induction l with
  | nil => simp [dedupFirstBy]
  | cons x t ih =>
    simp only [dedupFirstBy, List.pairwise_cons]
    refine ⟨fun b hb => ?_, ih.filter _⟩
    have := (List.mem_filter.mp hb).2
    simpa using this

theorem foldl_congr_mem {α β : Type} (L : List α) (f g : β → α → β) :
    ∀ b, (∀ x ∈ L, ∀ acc, f acc x = g acc x) → L.foldl f b = L.foldl g b := by
  induction L with
  | nil => intro b _; rfl
  | cons x t ih =>
    intro b h
    simp only [List.foldl_cons]
    rw [h x (by simp)]
    exact ih _ (fun y hy acc => h y (by simp [hy]) acc)

/-! ### Claim C3 — reference-resolution termination -/

/-- C3: the claim states that `resolve` terminates on every input schema
graph, returning the string-typed placeholder on detected cycles.  The code
has no cycle detection: on the self-referential reference
`#/components/schemas/A` the recursion never terminates — no amount of fuel
suffices (each step consumes one reference hop and returns to the same
schema node), so in particular it never produces the placeholder. -/
theorem claim_C3_resolve_cyclic_diverges :
    ∀ fuel, resolveSchema cyclicSpec fuel cyclicRef = none := by
  intro fuel
  induction fuel with
  | zero => rfl
  | succ f ih =>
    calc resolveSchema cyclicSpec (f + 1) cyclicRef
        = resolveSchema cyclicSpec f cyclicRef := rfl
      _ = none := ih

/-! ### Claim C1 — unknown-tool handling and failure conversion -/

/-- C1 counterexample: dispatching a name absent from the lookup table does
not produce an error-flagged result — the handler throws
(`throw new Error(...)`, source line 350).  Evaluated at the concrete empty
lookup table and tool name `nope`. -/
theorem claim_C1_counterexample :
    dispatch ctxEmpty "nope" (Json.obj []) =
      DispatchOutcome.thrown "Tool not found: nope" := rfl

/-- C1 (amended): an invocation naming a tool with no Routing Record makes
`dispatch` throw a `Tool not found` error before any HTTP request is built
(so no HTTP call is performed); it is the failure of the HTTP call itself
that the handler converts into an error-flagged result. -/
theorem claim_C1_amended :
    (∀ ctx name args, lookupMeta ctx.ops name = none →
        dispatch ctx name args = .thrown ("Tool not found: " ++ name)) ∧
    (∀ f msg rd, (handleHttpOutcome f (.failure msg rd)).isError = true) := by
  constructor
  · intro ctx name args h
    simp [dispatch, h]
  · intro f msg rd
    rfl

/-- C1 witness: the amended theorem applied at the empty lookup table. -/
theorem claim_C1_witness :
    lookupMeta ctxEmpty.ops "nope" = none ∧
    dispatch ctxEmpty "nope" Json.undef = .thrown ("Tool not found: " ++ "nope") ∧
    (handleHttpOutcome 10 (.failure "boom" Json.undef)).isError = true :=
  ⟨rfl, claim_C1_amended.1 ctxEmpty "nope" Json.undef rfl,
    claim_C1_amended.2 10 "boom" Json.undef⟩

/-! ### Claim C8 — failed calls carry the structured error body -/

/-- C8: when the HTTP call fails, the handler returns an error-flagged result
whose text is the 2-space-indented serialization of the origin API's
structured error body when one is present (truthy), and the raw error message
otherwise (source lines 415-427). -/
theorem claim_C8_error_body :
    ∀ f msg rd,
    (jsTruthy rd = true →
      handleHttpOutcome f (.failure msg rd) =
        { isError := true,
          text := match stringify2 f 0 rd with
                  | some s => Json.str s
                  | none => Json.undef }) ∧
    (jsTruthy rd = false →
      handleHttpOutcome f (.failure msg rd) = { isError := true, text := Json.str msg }) := by
  intro f msg rd
  constructor
  · intro h
    simp [handleHttpOutcome, h]
  · intro h
    simp [handleHttpOutcome, h]

/-- C8 witness: a 404 whose body is `{"message":"not found"}` yields exactly
that body serialized, not the generic message. -/
theorem claim_C8_witness :
    jsTruthy rd404 = true ∧
    handleHttpOutcome 10 (.failure "Request failed with status code 404" rd404) =
      { isError := true, text := Json.str "\x7b\n  \"message\": \"not found\"\n\x7d" } :=
  ⟨rfl,
    ((claim_C8_error_body 10 "Request failed with status code 404" rd404).1 rfl).trans rfl⟩

/-! ### Fold lemmas for the key-deletion loops -/

theorem get_of_not_hasKeyF (fs : List (String × Json)) (k : String)
    (h : hasKeyF fs k = false) : jsGetF fs k = .undef := by
  induction fs with
  | nil => rfl
  | cons kv t ih =>
    obtain ⟨k', v'⟩ := kv
    simp [hasKeyF] at h
    simp [jsGetF, h.1, ih h.2]

/-- A fold whose step touches only its own key preserves lookups at keys
outside the folded list. -/
theorem foldl_getHas_pres (g : List (String × Json) → String → List (String × Json))
    (KS : List String)
    (hg : ∀ c k', ∀ k, k' ≠ k →
      jsGetF (g c k') k = jsGetF c k ∧ hasKeyF (g c k') k = hasKeyF c k)
    (k : String) (hk : k ∉ KS) :
    ∀ c, jsGetF (KS.foldl g c) k = jsGetF c k ∧ hasKeyF (KS.foldl g c) k = hasKeyF c k := by
  induction KS with
  | nil => intro c; exact ⟨rfl, rfl⟩
  | cons k' rest ih =>
    intro c
    have hne : k' ≠ k := by
      intro h; exact hk (h ▸ List.mem_cons_self _ _)
    have hrest : k ∉ rest := fun h => hk (List.mem_cons_of_mem _ h)
    have step := hg c k' k hne
    have tail := ih (fun h => hk (List.mem_cons_of_mem _ h)) (g c k')
    exact ⟨tail.1.trans step.1, tail.2.trans step.2⟩

/-- The conditional-erase fold (`if P (c[k']) then delete c[k']`) at a key of
the (duplicate-free) folded list: the key is deleted exactly when its original
value satisfies `P`. -/
theorem foldl_condErase_mem (P : Json → Bool) (KS : List String) :
    KS.Nodup → ∀ (c : List (String × Json)) (k : String), k ∈ KS →
    jsGetF (KS.foldl (fun c k' => if P (jsGetF c k') then eraseKeyF c k' else c) c) k
      = (if P (jsGetF c k) then Json.undef else jsGetF c k) ∧
    hasKeyF (KS.foldl (fun c k' => if P (jsGetF c k') then eraseKeyF c k' else c) c) k
      = (if P (jsGetF c k) then false else hasKeyF c k) := by
  induction KS with
  | nil => intro _ c k hk; cases hk
  | cons k' rest ih =>
    intro hnd c k hk
    simp only [List.nodup_cons] at hnd
    simp only [List.foldl_cons]
    by_cases h : k' = k
    · subst h
      have hrest : k' ∉ rest := hnd.1
      have pres := foldl_getHas_pres
        (fun c k' => if P (jsGetF c k') then eraseKeyF c k' else c) rest
        (fun c k2 k hne => by
          by_cases hp : P (jsGetF c k2) = true <;>
            simp [hp, jsGetF_eraseKeyF_ne _ _ _ hne, hasKeyF_eraseKeyF_ne _ _ _ hne])
        k' hrest
      by_cases hp : P (jsGetF c k') = true
      · simp only [hp, if_true]
        have := pres (eraseKeyF c k')
        rw [this.1, this.2, jsGetF_eraseKeyF_self, hasKeyF_eraseKeyF_self]
        exact ⟨rfl, rfl⟩
      · simp only [hp]
        have := pres c
        simp only [Bool.not_eq_true] at hp
        simp [hp] at this ⊢
        exact this
    · have hk2 : k ∈ rest := by
        rcases List.mem_cons.mp hk with h1 | h1
        · exact absurd h1.symm h
        · exact h1
      have step_get : jsGetF (if P (jsGetF c k') then eraseKeyF c k' else c) k = jsGetF c k := by
        by_cases hp : P (jsGetF c k') = true <;> simp [hp, jsGetF_eraseKeyF_ne _ _ _ h]
      have step_has : hasKeyF (if P (jsGetF c k') then eraseKeyF c k' else c) k = hasKeyF c k := by
        by_cases hp : P (jsGetF c k') = true <;> simp [hp, hasKeyF_eraseKeyF_ne _ _ _ h]
      have := ih hnd.2 (if P (jsGetF c k') then eraseKeyF c k' else c) k hk2
      rw [step_get, step_has] at this
      exact this

/-- Once a key is absent it stays absent through the erase-if-present fold. -/
theorem foldl_eraseIfHas_absent (KS : List String) :
    ∀ c k, hasKeyF c k = false →
    hasKeyF (KS.foldl (fun c k' => if hasKeyF c k' then eraseKeyF c k' else c) c) k = false := by
  induction KS with
  | nil => intro c k h; exact h
  | cons k' rest ih =>
    intro c k h
    simp only [List.foldl_cons]
    apply ih
    by_cases h2 : k' = k
    · subst h2
      by_cases hp : hasKeyF c k' = true <;> simp [hp, hasKeyF_eraseKeyF_self, h]
    · by_cases hp : hasKeyF c k' = true <;> simp [hp, hasKeyF_eraseKeyF_ne _ _ _ h2, h]

/-- The erase-if-present fold removes every key of the folded list. -/
theorem foldl_eraseIfHas_mem (KS : List String) :
    ∀ c k, k ∈ KS →
    hasKeyF (KS.foldl (fun c k' => if hasKeyF c k' then eraseKeyF c k' else c) c) k = false := by
  induction KS with
  | nil => intro c k hk; cases hk
  | cons k' rest ih =>
    intro c k hk
    simp only [List.foldl_cons]
    by_cases h : k' = k
    · subst h
      apply foldl_eraseIfHas_absent
      by_cases hp : hasKeyF c k' = true <;> simp [hp, hasKeyF_eraseKeyF_self]
    · have hk2 : k ∈ rest := by
        rcases List.mem_cons.mp hk with h1 | h1
        · exact absurd h1.symm h
        · exact h1
      exact ih _ k hk2

/-! ### Per-stage lemmas for the sanitizer -/

theorem sanEnumStage_pres (c : List (String × Json)) (k : String) (h : k ≠ "enum") :
    jsGetF (sanEnumStage c) k = jsGetF c k ∧ hasKeyF (sanEnumStage c) k = hasKeyF c k := by
  have hne : "enum" ≠ k := Ne.symm h
  cases hE : jsGetF c "enum" with
  | arr es =>
    simp only [sanEnumStage, hE]
    split
    · exact ⟨jsGetF_eraseKeyF_ne _ _ _ hne, hasKeyF_eraseKeyF_ne _ _ _ hne⟩
    · exact ⟨jsGetF_objSetF_ne _ _ _ _ hne, hasKeyF_objSetF_ne _ _ _ _ hne⟩
  | undef => simp [sanEnumStage, hE]
  | null => simp [sanEnumStage, hE]
  | bool b => simp [sanEnumStage, hE]
  | num n => simp [sanEnumStage, hE]
  | str s => simp [sanEnumStage, hE]
  | obj fs => simp [sanEnumStage, hE]

theorem sanPropsStage_pres (rec1 : Json → Json) (c : List (String × Json)) (k : String)
    (h : k ≠ "properties") :
    jsGetF (sanPropsStage rec1 c) k = jsGetF c k ∧
    hasKeyF (sanPropsStage rec1 c) k = hasKeyF c k := by
  have hne : "properties" ≠ k := Ne.symm h
  unfold sanPropsStage
  dsimp only
  split
  · exact ⟨jsGetF_objSetF_ne _ _ _ _ hne, hasKeyF_objSetF_ne _ _ _ _ hne⟩
  · exact ⟨rfl, rfl⟩

theorem sanItemsStage_pres (rec1 : Json → Json) (c : List (String × Json)) (k : String)
    (h : k ≠ "items") :
    jsGetF (sanItemsStage rec1 c) k = jsGetF c k ∧
    hasKeyF (sanItemsStage rec1 c) k = hasKeyF c k := by
  have hne : "items" ≠ k := Ne.symm h
  unfold sanItemsStage
  split
  · exact ⟨jsGetF_objSetF_ne _ _ _ _ hne, hasKeyF_objSetF_ne _ _ _ _ hne⟩
  · exact ⟨rfl, rfl⟩

theorem sanCompsStage_pres (rec1 : Json → Json) (k : String)
    (h : k ∉ (["allOf", "anyOf", "oneOf"] : List String)) (c : List (String × Json)) :
    jsGetF (sanCompsStage rec1 c) k = jsGetF c k ∧
    hasKeyF (sanCompsStage rec1 c) k = hasKeyF c k := by
  unfold sanCompsStage
  exact foldl_getHas_pres _ _
    (fun c k2 k hne => by
      cases hE : jsGetF c k2 <;>
        simp [hE, jsGetF_objSetF_ne _ _ _ _ hne, hasKeyF_objSetF_ne _ _ _ _ hne])
    k h c

/-- The last four sanitizer stages leave every key outside their own key set
untouched. -/
theorem sanSuffix_pres (rec1 : Json → Json) (k : String)
    (h : k ∉ (["enum", "properties", "items", "allOf", "anyOf", "oneOf"] : List String))
    (c : List (String × Json)) :
    jsGetF (sanCompsStage rec1 (sanItemsStage rec1 (sanPropsStage rec1 (sanEnumStage c)))) k
      = jsGetF c k ∧
    hasKeyF (sanCompsStage rec1 (sanItemsStage rec1 (sanPropsStage rec1 (sanEnumStage c)))) k
      = hasKeyF c k := by
  simp only [List.mem_cons, not_or] at h
  obtain ⟨e1, e2, e3, e4, e5, e6, -⟩ := h
  have hcin : k ∉ (["allOf", "anyOf", "oneOf"] : List String) := by
    simp only [List.mem_cons, not_or]
    exact ⟨e4, e5, e6, by simp⟩
  have s3 := sanEnumStage_pres c k e1
  have s4 := sanPropsStage_pres rec1 (sanEnumStage c) k e2
  have s5 := sanItemsStage_pres rec1 (sanPropsStage rec1 (sanEnumStage c)) k e3
  have s6 := sanCompsStage_pres rec1 k hcin
    (sanItemsStage rec1 (sanPropsStage rec1 (sanEnumStage c)))
  exact ⟨((s6.1.trans s5.1).trans s4.1).trans s3.1,
         ((s6.2.trans s5.2).trans s4.2).trans s3.2⟩

theorem sanAnnotStage_pres (k : String) (h : k ∉ annotDropKeys) (c : List (String × Json)) :
    jsGetF (sanAnnotStage c) k = jsGetF c k ∧
    hasKeyF (sanAnnotStage c) k = hasKeyF c k := by
  unfold sanAnnotStage
  exact foldl_getHas_pres _ _
    (fun c k2 k hne => by
      by_cases hp : hasKeyF c k2 = true <;>
        simp [hp, jsGetF_eraseKeyF_ne _ _ _ hne, hasKeyF_eraseKeyF_ne _ _ _ hne])
    k h c

theorem sanNumericStage_pres (k : String) (h : k ∉ numericCheckKeys) (c : List (String × Json)) :
    jsGetF (sanNumericStage c) k = jsGetF c k ∧
    hasKeyF (sanNumericStage c) k = hasKeyF c k := by
  unfold sanNumericStage
  exact foldl_getHas_pres _ _
    (fun c k2 k hne => by
      by_cases hp : isBadNum (jsGetF c k2) = true <;>
        simp [hp, jsGetF_eraseKeyF_ne _ _ _ hne, hasKeyF_eraseKeyF_ne _ _ _ hne])
    k h c

/-! ### Claim C7 — what the sanitizer removes -/

/-- C7 (amended): on an object node, the sanitizer (i) deletes a
numeric-checked keyword iff its value is a non-finite or over-safe-magnitude
number, leaving it unchanged otherwise, (ii) ALSO unconditionally drops the
annotation keywords `example`, `examples`, `deprecated`, `readOnly`,
`writeOnly`, `xml`, `style`, `explode`, `nullable` (so a finite `example`
does not survive, contrary to the original claim), and (iii) leaves every
other keyword unchanged except the recursed/filtered positions `enum`,
`properties`, `items`, `allOf`, `anyOf`, `oneOf`.  (The embedding is purely
functional, so the no-mutation part holds by construction.) -/
theorem claim_C7_amended :
    ∀ f fs g k, (keysF fs).Nodup →
    sanitizeSchemaForMCP (f + 1) (Json.obj fs) = Json.obj g →
    ((k ∈ numericCheckKeys → k ∉ annotDropKeys →
        (isBadNum (jsGetF fs k) = true → hasKeyF g k = false) ∧
        (isBadNum (jsGetF fs k) = false → jsGetF g k = jsGetF fs k)) ∧
     (k ∈ annotDropKeys → hasKeyF g k = false) ∧
     (k ∉ numericCheckKeys → k ∉ annotDropKeys →
      k ∉ (["enum", "properties", "items", "allOf", "anyOf", "oneOf"] : List String) →
        jsGetF g k = jsGetF fs k ∧ hasKeyF g k = hasKeyF fs k)) := by
  intro f fs g k hnd hg
  have hclone : cloneFields fs = fs := cloneFields_eq_self fs hnd
  have h0 : sanitizeSchemaForMCP (f + 1) (Json.obj fs)
      = Json.obj (sanCompsStage (sanitizeSchemaForMCP f)
          (sanItemsStage (sanitizeSchemaForMCP f)
            (sanPropsStage (sanitizeSchemaForMCP f)
              (sanEnumStage (sanAnnotStage (sanNumericStage (cloneFields fs))))))) := rfl
  rw [h0, hclone] at hg
  injection hg with hg
  subst hg
  refine ⟨?_, ?_, ?_⟩
  · -- numeric-checked keyword, not an annotation keyword
    intro hkn hka
    have hsix : k ∉ (["enum", "properties", "items", "allOf", "anyOf", "oneOf"] : List String) := by
      have hall : ∀ x ∈ numericCheckKeys,
          x ∉ (["enum", "properties", "items", "allOf", "anyOf", "oneOf"] : List String) := by
        decide
      exact hall k hkn
    have hnum := foldl_condErase_mem isBadNum numericCheckKeys (by decide) fs k hkn
    have hann := sanAnnotStage_pres k hka (sanNumericStage fs)
    have hsuf := sanSuffix_pres (sanitizeSchemaForMCP f) k hsix
      (sanAnnotStage (sanNumericStage fs))
    have hnum1 : jsGetF (sanNumericStage fs) k
        = (if isBadNum (jsGetF fs k) then Json.undef else jsGetF fs k) := by
      unfold sanNumericStage; exact hnum.1
    have hnum2 : hasKeyF (sanNumericStage fs) k
        = (if isBadNum (jsGetF fs k) then false else hasKeyF fs k) := by
      unfold sanNumericStage; exact hnum.2
    constructor
    · intro hbad
      rw [hsuf.2, hann.2, hnum2, hbad, if_pos rfl]
    · intro hgood
      rw [hsuf.1, hann.1, hnum1, hgood]
      simp
  · -- annotation keyword: always dropped
    intro hka
    have hsix : k ∉ (["enum", "properties", "items", "allOf", "anyOf", "oneOf"] : List String) := by
      have hall : ∀ x ∈ annotDropKeys,
          x ∉ (["enum", "properties", "items", "allOf", "anyOf", "oneOf"] : List String) := by
        decide
      exact hall k hka
    have hsuf := sanSuffix_pres (sanitizeSchemaForMCP f) k hsix
      (sanAnnotStage (sanNumericStage fs))
    have hdrop : hasKeyF (sanAnnotStage (sanNumericStage fs)) k = false := by
      unfold sanAnnotStage
      exact foldl_eraseIfHas_mem annotDropKeys (sanNumericStage fs) k hka
    rw [hsuf.2, hdrop]
  · -- every other keyword survives unchanged
    intro hkn hka hsix
    have hnum := sanNumericStage_pres k hkn fs
    have hann := sanAnnotStage_pres k hka (sanNumericStage fs)
    have hsuf := sanSuffix_pres (sanitizeSchemaForMCP f) k hsix
      (sanAnnotStage (sanNumericStage fs))
    exact ⟨(hsuf.1.trans hann.1).trans hnum.1, (hsuf.2.trans hann.2).trans hnum.2⟩

/-- C7 counterexample: a node with a finite, in-range `example: 5` — the
original claim says only non-finite/oversized numeric values are removed and
every other keyword survives, but the sanitizer drops `example`
unconditionally. -/
theorem claim_C7_counterexample :
    isBadNum (jsGetF [("example", Json.num (.fin 5)), ("title", Json.str "t")] "example") = false ∧
    sanitizeSchemaForMCP 2 c7Node = Json.obj [("title", Json.str "t")] :=
  ⟨rfl, rfl⟩

/-- C7 witness: the amended theorem applied to `c7Node` — `example` is
dropped, `title` survives with its value. -/
theorem claim_C7_witness :
    (keysF [("example", Json.num (.fin 5)), ("title", Json.str "t")]).Nodup ∧
    hasKeyF [("title", Json.str "t")] "example" = false ∧
    jsGetF [("title", Json.str "t")] "title"
      = jsGetF [("example", Json.num (.fin 5)), ("title", Json.str "t")] "title" :=
  ⟨by decide,
    (claim_C7_amended 1 [("example", Json.num (.fin 5)), ("title", Json.str "t")]
      [("title", Json.str "t")] "example" (by decide) rfl).2.1 (by decide),
    ((claim_C7_amended 1 [("example", Json.num (.fin 5)), ("title", Json.str "t")]
      [("title", Json.str "t")] "title" (by decide) rfl).2.2 (by decide) (by decide)
      (by decide)).1⟩

/-! ### Spread-merge lemmas (for the `allOf` composition claim) -/

theorem hasKeyF_map_override (a b : List (String × Json)) (k : String) :
    hasKeyF (a.map (fun kv => if hasKeyF b kv.1 then (kv.1, jsGetF b kv.1) else kv)) k
      = hasKeyF a k := by
  induction a with
  | nil => rfl
  | cons kv t ih =>
    obtain ⟨k0, v0⟩ := kv
    simp only [List.map_cons]
    by_cases hb : hasKeyF b k0 = true
    · rw [if_pos hb]
      simp [hasKeyF, ih]
    · rw [if_neg hb]
      simp [hasKeyF, ih]

theorem jsGetF_map_override (a b : List (String × Json)) (k : String)
    (ha : hasKeyF a k = true) :
    jsGetF (a.map (fun kv => if hasKeyF b kv.1 then (kv.1, jsGetF b kv.1) else kv)) k
      = (if hasKeyF b k then jsGetF b k else jsGetF a k) := by
  induction a with
  | nil => cases ha
  | cons kv t ih =>
    obtain ⟨k0, v0⟩ := kv
    by_cases h : k0 = k
    · subst h
      simp only [List.map_cons]
      by_cases hb : hasKeyF b k0 = true
      · rw [if_pos hb]
        simp [jsGetF, hb]
      · rw [if_neg hb]
        simp [jsGetF, hb]
    · simp only [hasKeyF, decide_eq_true_eq, Bool.or_eq_true] at ha
      rcases ha with h1 | h1
      · exact absurd h1 h
      · simp only [List.map_cons]
        by_cases hb : hasKeyF b k0 = true
        · rw [if_pos hb]
          simp [jsGetF, h, ih h1]
        · rw [if_neg hb]
          simp [jsGetF, h, ih h1]

theorem hasKeyF_filter_notin (a b : List (String × Json)) (k : String) :
    hasKeyF (b.filter (fun kv => !hasKeyF a kv.1)) k
      = (hasKeyF b k && !hasKeyF a k) := by
  induction b with
  | nil => simp [hasKeyF]
  | cons kv t ih =>
    obtain ⟨k0, v0⟩ := kv
    by_cases h : k0 = k
    · subst h
      by_cases hb : hasKeyF a k0 = true <;> simp [hasKeyF, hb, ih]
    · by_cases hb : hasKeyF a k0 = true <;> simp [hasKeyF, h, hb, ih]

theorem jsGetF_filter_notin (a b : List (String × Json)) (k : String)
    (ha : hasKeyF a k = false) :
    jsGetF (b.filter (fun kv => !hasKeyF a kv.1)) k = jsGetF b k := by
  induction b with
  | nil => simp
  | cons kv t ih =>
    obtain ⟨k0, v0⟩ := kv
    by_cases h : k0 = k
    · subst h
      simp [jsGetF, ha]
    · by_cases hb : hasKeyF a k0 = true <;> simp [jsGetF, h, hb, ih]

theorem hasKeyF_spreadMergeF (a b : List (String × Json)) (k : String) :
    hasKeyF (spreadMergeF a b) k = (hasKeyF a k || hasKeyF b k) := by
  unfold spreadMergeF
  rw [hasKeyF_append, hasKeyF_map_override, hasKeyF_filter_notin]
  cases h1 : hasKeyF a k <;> cases h2 : hasKeyF b k <;> rfl

theorem jsGetF_spreadMergeF (a b : List (String × Json)) (k : String) :
    jsGetF (spreadMergeF a b) k = (if hasKeyF b k then jsGetF b k else jsGetF a k) := by
  unfold spreadMergeF
  rw [jsGetF_append, hasKeyF_map_override]
  by_cases ha : hasKeyF a k = true
  · rw [if_pos ha, jsGetF_map_override a b k ha]
  · have ha' : hasKeyF a k = false := by simpa using ha
    rw [if_neg ha, jsGetF_filter_notin a b k ha']
    by_cases hb : hasKeyF b k = true
    · rw [if_pos hb]
    · have hb' : hasKeyF b k = false := by simpa using hb
      rw [if_neg hb, get_of_not_hasKeyF b k hb', get_of_not_hasKeyF a k ha']

/-! ### Claim C6 — `allOf` composition merge -/

/-- Characterization of the `allOf` merge loop: starting from accumulated
`props`/`req`, for branches that resolve to nodes with object `properties`
and array `required`, the loop succeeds and produces exactly the
later-overrides property merge (`specMergeLookup`) and the de-duplicated
union of the required lists. -/
theorem allOfFold_chara (res : Json → Option Json) :
    ∀ (branches : List Json) (prs : List (List (String × Json) × List Json))
      (props : List (String × Json)) (req : List Json),
    List.Forall₂ (fun br pr =>
      ∃ r', res br = some r' ∧ jsGet r' "properties" = Json.obj pr.1
        ∧ jsGet r' "required" = Json.arr pr.2) branches prs →
    req.Pairwise (fun a b => sameValueZero a b = false) →
    ∃ P Q, allOfFold res branches props req
        = some (Json.obj [("type", Json.str "object"), ("properties", Json.obj P),
                          ("required", Json.arr Q)])
      ∧ (∀ k, jsGetF P k = specMergeLookup (jsGetF props k) (prs.map Prod.fst) k)
      ∧ (∀ k, hasKeyF P k
          = (hasKeyF props k || (prs.map Prod.fst).any (fun p => hasKeyF p k)))
      ∧ (∀ v, v ∈ Q ↔ (v ∈ req ∨ ∃ rq ∈ prs.map Prod.snd, v ∈ rq))
      ∧ Q.Pairwise (fun a b => sameValueZero a b = false) := by
  intro branches
  induction branches with
  | nil =>
    intro prs props req hf hp
    cases hf
    refine ⟨props, req, rfl, ?_, ?_, ?_, hp⟩
    · intro k; rfl
    · intro k; simp
    · intro v; simp
  | cons br rest ih =>
    intro prs props req hf hp
    cases hf with
    | cons hhead htail =>
      rename_i pr prs'
      obtain ⟨r', hres, hprops, hreq⟩ := hhead
      have step : allOfFold res (br :: rest) props req
          = allOfFold res rest (spreadMergeF props pr.1)
              (dedupFirstBy sameValueZero (req ++ pr.2)) := by
        simp only [allOfFold, hres, hprops, hreq]
        rfl
      rw [step]
      have hp' : (dedupFirstBy sameValueZero (req ++ pr.2)).Pairwise
          (fun a b => sameValueZero a b = false) := pairwise_dedupFirstBy_svz _
      obtain ⟨P, Q, heq, hgetk, hhask, hmem, hpw⟩ :=
        ih prs' (spreadMergeF props pr.1) (dedupFirstBy sameValueZero (req ++ pr.2)) htail hp'
      refine ⟨P, Q, heq, ?_, ?_, ?_, hpw⟩
      · intro k
        rw [hgetk k]
        simp only [List.map_cons, specMergeLookup, List.foldl_cons]
        rw [jsGetF_spreadMergeF]
      · intro k
        rw [hhask k, hasKeyF_spreadMergeF]
        simp [Bool.or_assoc]
      · intro v
        rw [hmem v]
        simp only [mem_dedupFirstBy_svz, List.mem_append, List.map_cons,
          List.mem_cons]
        constructor
        · rintro ((h1 | h1) | ⟨rq, hrq, h2⟩)
          · exact Or.inl h1
          · exact Or.inr ⟨pr.2, Or.inl rfl, h1⟩
          · exact Or.inr ⟨rq, Or.inr hrq, h2⟩
        · rintro (h1 | ⟨rq, (h2 | h2), h3⟩)
          · exact Or.inl (Or.inl h1)
          · exact Or.inl (Or.inr (h2 ▸ h3))
          · exact Or.inr ⟨rq, h2, h3⟩

/-- C6: on a node with `allOf` (and no reference), `resolveSchema` merges all
branches into a single object schema: `type: "object"`, properties merged by
key with later branches overriding earlier ones (`specMergeLookup` starting
from the empty object), and the branches' required lists unioned and
de-duplicated. -/
theorem claim_C6_allOf_merge :
    ∀ (spec : Json) (f : Nat) (fs : List (String × Json)) (branches : List Json)
      (prs : List (List (String × Json) × List Json)),
    jsTruthy (jsGetF fs "$ref") = false →
    jsGetF fs "allOf" = Json.arr branches →
    List.Forall₂ (fun br pr =>
      ∃ r', resolveSchema spec f br = some r' ∧ jsGet r' "properties" = Json.obj pr.1
        ∧ jsGet r' "required" = Json.arr pr.2) branches prs →
    ∃ P Q, resolveSchema spec (f + 1) (Json.obj fs)
        = some (Json.obj [("type", Json.str "object"), ("properties", Json.obj P),
                          ("required", Json.arr Q)])
      ∧ (∀ k, jsGetF P k = specMergeLookup Json.undef (prs.map Prod.fst) k)
      ∧ (∀ k, hasKeyF P k = (prs.map Prod.fst).any (fun p => hasKeyF p k))
      ∧ (∀ v, v ∈ Q ↔ ∃ rq ∈ prs.map Prod.snd, v ∈ rq)
      ∧ Q.Pairwise (fun a b => sameValueZero a b = false) := by
  intro spec f fs branches prs href hallof hf
  have hstep : resolveSchema spec (f + 1) (Json.obj fs)
      = allOfFold (resolveSchema spec f) branches [] [] := by
    have c0 : (!jsTruthy (Json.obj fs)) = false := rfl
    have c1 : jsTruthy (jsGet (Json.obj fs) "$ref") = false := href
    have c2 : jsTruthy (jsGet (Json.obj fs) "allOf") = true := by
      show jsTruthy (jsGetF fs "allOf") = true
      rw [hallof]
      rfl
    have c3 : jsGet (Json.obj fs) "allOf" = Json.arr branches := hallof
    simp only [resolveSchema, c0, c1, c2, c3, Bool.false_eq_true, if_false, if_true]
    rfl
  rw [hstep]
  obtain ⟨P, Q, heq, hgetk, hhask, hmem, hpw⟩ :=
    allOfFold_chara (resolveSchema spec f) branches prs [] [] hf (by simp)
  refine ⟨P, Q, heq, ?_, ?_, ?_, hpw⟩
  · intro k; exact hgetk k
  · intro k
    rw [hhask k]
    simp [hasKeyF]
  · intro v
    rw [hmem v]
    simp

/-- C6 witness: the merge theorem applied to two concrete branches with an
overlapping property `b` (the second branch overrides) and an overlapping
required name `a` (the union is de-duplicated). -/
theorem claim_C6_witness :
    resolveSchema (Json.obj []) 3 (Json.obj [("allOf", Json.arr [wB1, wB2])])
      = some (Json.obj [("type", Json.str "object"),
          ("properties", Json.obj [("a", Json.obj [("type", Json.str "string")]),
                                   ("b", Json.obj [("type", Json.str "integer")])]),
          ("required", Json.arr [Json.str "a", Json.str "b"])]) ∧
    specMergeLookup Json.undef [wPf1, wPf2] "b" = Json.obj [("type", Json.str "integer")] ∧
    specMergeLookup Json.undef [wPf1, wPf2] "a" = Json.obj [("type", Json.str "string")] ∧
    sameValueZero (Json.str "a") (Json.str "b") = false := by
  obtain ⟨P, Q, heq, hget, hhas, hmem, hpw⟩ :=
    claim_C6_allOf_merge (Json.obj []) 2 [("allOf", Json.arr [wB1, wB2])] [wB1, wB2]
      [(wPf1, [Json.str "a"]), (wPf2, [Json.str "a", Json.str "b"])] rfl rfl
      (List.Forall₂.cons ⟨wB1, rfl, rfl, rfl⟩
        (List.Forall₂.cons ⟨wB2, rfl, rfl, rfl⟩ List.Forall₂.nil))
  have hcomp : resolveSchema (Json.obj []) (2 + 1) (Json.obj [("allOf", Json.arr [wB1, wB2])])
      = some (Json.obj [("type", Json.str "object"),
          ("properties", Json.obj [("a", Json.obj [("type", Json.str "string")]),
                                   ("b", Json.obj [("type", Json.str "integer")])]),
          ("required", Json.arr [Json.str "a", Json.str "b"])]) := rfl
  have hinj := Option.some.inj (hcomp.symm.trans heq)
  have hP : P = [("a", Json.obj [("type", Json.str "string")]),
                 ("b", Json.obj [("type", Json.str "integer")])] := by
    injection hinj with hlist
    injection hlist with h1 h2
    injection h2 with h3 h4
    injection h3 with h3a h3b
    injection h3b with hPl
    exact hPl.symm
  have hget' : ∀ k, jsGetF P k = specMergeLookup Json.undef [wPf1, wPf2] k := by
    simpa using hget
  refine ⟨hcomp, ?_, ?_, rfl⟩
  · rw [← hget' "b", hP]
    rfl
  · rw [← hget' "a", hP]
    rfl

/-! ### Claim C9 — only routed argument names affect the request -/

/-- C9: for a Routing Record whose unflattened-body bucket routes
`requestBody` (as every generated record does), two argument mappings that
agree on every routed name produce identical HTTP requests — an argument
whose name appears in no routing bucket has no effect. -/
theorem claim_C9_routed_only :
    ∀ (baseUrl token : String) (meta : ToolMeta) (a1 a2 : Json),
    (meta.isBodyFlattened = false → meta.bodyParams ≠ [] → "requestBody" ∈ meta.bodyParams) →
    (∀ p ∈ routedNames meta, jsGet (safeArgsOf a1) p = jsGet (safeArgsOf a2) p) →
    buildRequest baseUrl token meta a1 = buildRequest baseUrl token meta a2 := by
  intro baseUrl token meta a1 a2 hB hAgree
  have hPath : ∀ p ∈ meta.pathParams, jsGet (safeArgsOf a1) p = jsGet (safeArgsOf a2) p :=
    fun p hp => hAgree p (by simp [routedNames, hp])
  have hQuery : ∀ p ∈ meta.queryParams, jsGet (safeArgsOf a1) p = jsGet (safeArgsOf a2) p :=
    fun p hp => hAgree p (by simp [routedNames, hp])
  have hHeader : ∀ p ∈ meta.headerParams, jsGet (safeArgsOf a1) p = jsGet (safeArgsOf a2) p :=
    fun p hp => hAgree p (by simp [routedNames, hp])
  have hBody : ∀ p ∈ meta.bodyParams, jsGet (safeArgsOf a1) p = jsGet (safeArgsOf a2) p :=
    fun p hp => hAgree p (by simp [routedNames, hp])
  unfold buildRequest
  simp only [HttpRequest.mk.injEq]
  refine ⟨trivial, ?_, ?_, ?_, ?_⟩
  · unfold substPathParams
    exact foldl_congr_mem _ _ _ _ (fun p hp u => by rw [hPath p hp])
  · exact foldl_congr_mem _ _ _ _ (fun p hp h => by rw [hHeader p hp])
  · exact foldl_congr_mem _ _ _ _ (fun p hp q => by rw [hQuery p hp])
  · by_cases hLen : meta.bodyParams.length > 0
    · simp only [hLen, if_true]
      by_cases hFl : meta.isBodyFlattened = true
      · simp only [hFl, if_true]
        congr 1
        exact foldl_congr_mem _ _ _ _ (fun p hp b => by rw [hBody p hp])
      · have hFl' : meta.isBodyFlattened = false := by simpa using hFl
        have hne : meta.bodyParams ≠ [] := by
          intro h
          rw [h] at hLen
          exact absurd hLen (by simp)
        simp only [hFl', Bool.false_eq_true, if_false]
        exact hBody "requestBody" (hB hFl' hne)
    · simp only [hLen, if_false]

/-- C9 witness: two argument maps differing only on the unrouted name
`extra` build the same request for `wMeta`. -/
theorem claim_C9_witness :
    sameValueZero (jsGet (safeArgsOf wArgs1) "extra") (jsGet (safeArgsOf wArgs2) "extra") = false ∧
    buildRequest "https://api.centia.io" "tok" wMeta wArgs1
      = buildRequest "https://api.centia.io" "tok" wMeta wArgs2 := by
  refine ⟨rfl, ?_⟩
  apply claim_C9_routed_only
  · intro h
    exact absurd h (by decide)
  · intro p hp
    have : p = "id" ∨ p = "q" ∨ p = "h" ∨ p = "name" := by
      simpa [routedNames, wMeta] using hp
    rcases this with rfl | rfl | rfl | rfl <;> rfl

/-! ### Claim C10 — dispatch with absent arguments -/

theorem foldl_skip {α β : Type} (L : List α) (f : β → α → β)
    (h : ∀ acc x, f acc x = acc) : ∀ init, L.foldl f init = init := by
  induction L with
  | nil => intro init; rfl
  | cons x t ih =>
    intro init
    rw [List.foldl_cons, h init x]
    exact ih init

theorem startsWithL_append_self (pat b : List Char) : startsWithL (pat ++ b) pat = true := by
  induction pat with
  | nil => cases b <;> rfl
  | cons c t ih => simp [startsWithL, ih]

/-- When the pattern matches at the head, `replace` substitutes there. -/
theorem replaceOnceL_head_match (pat rep l : List Char) (h : startsWithL l pat = true) :
    replaceOnceL pat rep l = rep ++ l.drop pat.length := by
  cases l with
  | nil =>
    simp only [replaceOnceL, h, if_true]
    simp
  | cons c t =>
    simp only [replaceOnceL, h, if_true]

/-- A pattern starting with a character absent from `l` is not found. -/
theorem replaceOnceL_not_present (m : Char) (rest rep l : List Char) (hl : m ∉ l) :
    replaceOnceL (m :: rest) rep l = l := by
  induction l with
  | nil => rfl
  | cons c t ih =>
    have hc : c ≠ m := fun h => hl (h ▸ List.mem_cons_self _ _)
    have ht : m ∉ t := fun h => hl (List.mem_cons_of_mem _ h)
    have hsw : startsWithL (c :: t) (m :: rest) = false := by
      simp [startsWithL, hc]
    simp only [replaceOnceL, hsw, Bool.false_eq_true, if_false]
    rw [ih ht]

/-- Replacing a pattern whose second character `m` occurs nowhere in the
prefix `a` rewrites exactly the exhibited occurrence. -/
theorem replaceOnceL_marker (p0 m : Char) (rest rep : List Char) (hne : p0 ≠ m) :
    ∀ a b : List Char, m ∉ a →
    replaceOnceL (p0 :: m :: rest) rep (a ++ (p0 :: m :: rest) ++ b) = a ++ rep ++ b := by
  intro a
  induction a with
  | nil =>
    intro b _
    simp only [List.nil_append]
    rw [replaceOnceL_head_match _ _ _ (startsWithL_append_self (p0 :: m :: rest) b)]
    rw [List.drop_left]
  | cons c a' ih =>
    intro b hm
    have hc : c ≠ m := fun h => hm (h ▸ List.mem_cons_self _ _)
    have ha' : m ∉ a' := fun h => hm (List.mem_cons_of_mem _ h)
    have hsw : startsWithL (c :: (a' ++ (p0 :: m :: rest) ++ b)) (p0 :: m :: rest) = false := by
      by_cases hcp : c = p0
      · subst hcp
        cases a' with
        | nil =>
          simp only [List.nil_append]
          simp [startsWithL, hc]
        | cons d a'' =>
          have hd : d ≠ m := fun h => ha' (h ▸ List.mem_cons_self _ _)
          simp [startsWithL, hd]
      · simp [startsWithL, hcp]
    have key : (c :: a') ++ (p0 :: m :: rest) ++ b = c :: (a' ++ (p0 :: m :: rest) ++ b) := by
      simp
    rw [key]
    simp only [replaceOnceL, hsw, Bool.false_eq_true, if_false]
    rw [ih b ha']
    simp

/-- C10: dispatching a known tool with the arguments mapping entirely absent
behaves exactly as dispatching with an empty mapping — the request is built
(no failure before the HTTP call), no query or header entries are added, a
flattened body is the empty object — and a path placeholder preceded by its
slash separator is removed together with that slash. -/
theorem claim_C10_absent_args :
    (∀ (ctx : DispatchCtx) (name : String) (meta : ToolMeta),
      lookupMeta ctx.ops name = some meta →
      dispatch ctx name Json.undef = dispatch ctx name (Json.obj []) ∧
      dispatch ctx name Json.undef
        = .call (buildRequest ctx.baseUrl ctx.token meta Json.undef) ∧
      (buildRequest ctx.baseUrl ctx.token meta Json.undef).qparams = [] ∧
      (buildRequest ctx.baseUrl ctx.token meta Json.undef).headers = authHeaders ctx.token ∧
      (meta.isBodyFlattened = true → meta.bodyParams.length > 0 →
        (buildRequest ctx.baseUrl ctx.token meta Json.undef).body = Json.obj [])) ∧
    (∀ (baseUrl token method p pre suf : String) (qs hs bs : List String) (fl : Bool),
      lbrace ∉ (baseUrl ++ pre).data → lbrace ∉ suf.data →
      (buildRequest baseUrl token
        { method := method, path := pre ++ "/\x7b" ++ p ++ "\x7d" ++ suf,
          pathParams := [p], queryParams := qs, headerParams := hs,
          bodyParams := bs, isBodyFlattened := fl } Json.undef).url
        = String.mk ((baseUrl ++ pre).data ++ suf.data)) := by
  constructor
  · intro ctx name meta hlook
    have hskip : ∀ (p : String), (jsGet (Json.obj []) p).isUndef = true := fun p => rfl
    refine ⟨?_, ?_, ?_, ?_, ?_⟩
    · simp only [dispatch, hlook]
      rfl
    · simp only [dispatch, hlook]
    · show meta.queryParams.foldl _ [] = []
      exact foldl_skip _ _ (fun acc p => rfl) []
    · show meta.headerParams.foldl _ (authHeaders ctx.token) = authHeaders ctx.token
      exact foldl_skip _ _ (fun acc p => rfl) _
    · intro hFl hLen
      show (if meta.bodyParams.length > 0 then _ else _) = Json.obj []
      rw [if_pos hLen]
      rw [if_pos hFl]
      have : meta.bodyParams.foldl
          (fun b p => if !(jsGet (safeArgsOf Json.undef) p).isUndef then
            objSetF b p (jsGet (safeArgsOf Json.undef) p) else b) [] = [] :=
        foldl_skip _ _ (fun acc p => rfl) []
      rw [this]
  · intro baseUrl token method p pre suf qs hs bs fl hpre hsuf
    show substPathParams (safeArgsOf Json.undef)
        (baseUrl ++ (pre ++ "/\x7b" ++ p ++ "\x7d" ++ suf)) [p] = _
    have hget : (jsGet (safeArgsOf Json.undef) p).isUndef = true := rfl
    simp only [substPathParams, List.foldl_cons, List.foldl_nil, hget, Bool.not_true,
      Bool.false_eq_true, if_false]
    have hdata : (baseUrl ++ (pre ++ "/\x7b" ++ p ++ "\x7d" ++ suf)).data
        = (baseUrl ++ pre).data ++ ('/' :: lbrace :: (p.data ++ ['\x7d'])) ++ suf.data := by
      show baseUrl.data ++ (((pre.data ++ ('/' :: lbrace :: [])) ++ p.data ++ ['\x7d']) ++ suf.data)
          = (baseUrl.data ++ pre.data) ++ ('/' :: lbrace :: (p.data ++ ['\x7d'])) ++ suf.data
      simp
    have hpat1 : ("/\x7b" ++ p ++ "\x7d").data = '/' :: lbrace :: (p.data ++ ['\x7d']) := by
      show ('/' :: lbrace :: []) ++ p.data ++ ['\x7d'] = '/' :: lbrace :: (p.data ++ ['\x7d'])
      simp
    have hpat2 : ("\x7b" ++ p ++ "\x7d").data = lbrace :: (p.data ++ ['\x7d']) := by
      show (lbrace :: []) ++ p.data ++ ['\x7d'] = lbrace :: (p.data ++ ['\x7d'])
      simp
    show String.mk (replaceOnceL ("\x7b" ++ p ++ "\x7d").data "".data
        (String.mk (replaceOnceL ("/\x7b" ++ p ++ "\x7d").data "".data
          (baseUrl ++ (pre ++ "/\x7b" ++ p ++ "\x7d" ++ suf)).data)).data) = _
    rw [hpat1, hpat2, hdata]
    rw [replaceOnceL_marker '/' lbrace (p.data ++ ['\x7d']) "".data (by decide)
      ((baseUrl ++ pre).data) suf.data hpre]
    have hnot : lbrace ∉ ((baseUrl ++ pre).data ++ "".data ++ suf.data) := by
      intro hmem
      rcases List.mem_append.mp hmem with h | h
      · rcases List.mem_append.mp h with h2 | h2
        · exact hpre h2
        · cases h2
      · exact hsuf h
    rw [replaceOnceL_not_present lbrace (p.data ++ ['\x7d']) "".data _ hnot]
    simp

/-- C10 witness: a known tool with a path placeholder, a query, a header and a
flattened body field, dispatched with no arguments: same as the empty mapping,
empty query/extra headers, empty flattened body, and the `/{id}` placeholder
removed together with its slash. -/
theorem claim_C10_witness :
    lookupMeta [("createItem", wMeta)] "createItem" = some wMeta ∧
    dispatch ⟨"https://api.centia.io", "tok", [("createItem", wMeta)]⟩ "createItem" Json.undef
      = dispatch ⟨"https://api.centia.io", "tok", [("createItem", wMeta)]⟩ "createItem"
          (Json.obj []) ∧
    (buildRequest "https://api.centia.io" "tok" wMeta Json.undef).qparams = [] ∧
    (buildRequest "https://api.centia.io" "tok" wMeta Json.undef).headers = authHeaders "tok" ∧
    (buildRequest "https://api.centia.io" "tok" wMeta Json.undef).body = Json.obj [] ∧
    ("https://api.centia.io" ++ "/items").data.contains lbrace = false ∧
    (("" : String).data.contains lbrace) = false ∧
    (buildRequest "https://api.centia.io" "tok"
      { method := "post", path := "/items" ++ "/\x7b" ++ "id" ++ "\x7d" ++ "",
        pathParams := ["id"], queryParams := ["q"], headerParams := ["h"],
        bodyParams := ["name"], isBodyFlattened := true } Json.undef).url
      = String.mk (("https://api.centia.io" ++ "/items").data ++ ("" : String).data) := by
  have hctx : lookupMeta ([("createItem", wMeta)]) "createItem" = some wMeta := rfl
  have p1 := claim_C10_absent_args.1
    ⟨"https://api.centia.io", "tok", [("createItem", wMeta)]⟩ "createItem" wMeta hctx
  have p2 := claim_C10_absent_args.2 "https://api.centia.io" "tok" "post" "id" "/items" ""
    ["q"] ["h"] ["name"] true (by decide) (by decide)
  exact ⟨hctx, p1.1, p1.2.2.1, p1.2.2.2.1, p1.2.2.2.2 rfl (by decide),
    by decide, by decide, p2⟩

/-! ### Claims C2 and C5 — the parameter loop of the tool generator -/

/-- One parameter-loop iteration on a parameter declaring `d`: the property
map gains `d.pname` (some schema value `pv`), the required list gains the name
iff the required flag is set, and exactly the bucket of `d.ploc` gains the
name. -/
theorem processParam_chara (spec : Json) (f : Nat) (acc : ParamAcc) (param : Json) (d : PDecl)
    (h : paramOK spec f param d) :
    ∃ pv : Json, processParam spec f acc param = some
      { props := objSetF acc.props d.pname pv
        required := if d.preq then acc.required ++ [Json.str d.pname] else acc.required
        pathP := if d.ploc = "path" then acc.pathP ++ [d.pname] else acc.pathP
        queryP := if d.ploc = "query" then acc.queryP ++ [d.pname] else acc.queryP
        headerP := if d.ploc = "header" then acc.headerP ++ [d.pname] else acc.headerP } := by
  obtain ⟨rp, hrp, hname, hin, hreq, ps, hps⟩ := h
  refine ⟨Json.obj (objSetF
      (spreadOf (normalizeJsonSchemaForMCP f (sanitizeSchemaForMCP f ps))) "description"
      (if jsTruthy (jsGet rp "description") then jsGet rp "description"
       else jsGet (normalizeJsonSchemaForMCP f (sanitizeSchemaForMCP f ps)) "description")), ?_⟩
  unfold processParam
  rw [hrp]
  dsimp only
  rw [hps]
  dsimp only
  rw [hname, hin, hreq]
  simp only [jsToString, isStrEq]
  by_cases h1 : d.preq = true <;> by_cases h2 : d.ploc = "path" <;>
    by_cases h3 : d.ploc = "query" <;> by_cases h4 : d.ploc = "header" <;>
      simp [h1, h2, h3, h4]

/-- The whole parameter loop over declared parameters `ds`: buckets collect
the names by declared location in order, `required` collects the flagged
names, and the property-map keys accumulate each name (new names appended). -/
theorem processParams_chara (spec : Json) (f : Nat) :
    ∀ (ps : List Json) (ds : List PDecl) (acc : ParamAcc),
    List.Forall₂ (paramOK spec f) ps ds →
    ∃ acc', processParams spec f acc ps = some acc'
      ∧ acc'.pathP = acc.pathP ++ (ds.filter (fun d => d.ploc == "path")).map PDecl.pname
      ∧ acc'.queryP = acc.queryP ++ (ds.filter (fun d => d.ploc == "query")).map PDecl.pname
      ∧ acc'.headerP = acc.headerP ++ (ds.filter (fun d => d.ploc == "header")).map PDecl.pname
      ∧ acc'.required = acc.required ++ (ds.filter PDecl.preq).map (fun d => Json.str d.pname)
      ∧ keysF acc'.props = (ds.map PDecl.pname).foldl appendNewKey (keysF acc.props) := by
  intro ps
  induction ps with
  | nil =>
    intro ds acc h
    cases h
    exact ⟨acc, rfl, by simp, by simp, by simp, by simp, rfl⟩
  | cons p rest ih =>
    intro ds acc h
    cases h with
    | cons hd tl =>
      rename_i d ds'
      obtain ⟨pv, hstep⟩ := processParam_chara spec f acc p d hd
      obtain ⟨acc', heq, h1, h2, h3, h4, h5⟩ := ih ds' _ tl
      refine ⟨acc', ?_, ?_, ?_, ?_, ?_, ?_⟩
      · simp only [processParams, hstep]
        exact heq
      · rw [h1]
        by_cases hl : d.ploc = "path" <;> simp [hl, List.filter_cons]
      · rw [h2]
        by_cases hl : d.ploc = "query" <;> simp [hl, List.filter_cons]
      · rw [h3]
        by_cases hl : d.ploc = "header" <;> simp [hl, List.filter_cons]
      · rw [h4]
        by_cases hr : d.preq = true <;> simp [hr, List.filter_cons]
      · rw [h5]
        simp only [List.map_cons, List.foldl_cons, keysF_objSetF]

theorem contains_append_str (a b : List String) (k : String) :
    (a ++ b).contains k = (a.contains k || b.contains k) := by
  induction a with
  | nil => simp
  | cons x t ih => simp [List.contains_cons, ih, Bool.or_assoc]

/-- Folding fresh, pairwise-distinct keys into a key list appends them. -/
theorem foldl_appendNewKey_nodup (names : List String) :
    ∀ ks, names.Nodup → (∀ n ∈ names, ks.contains n = false) →
    names.foldl appendNewKey ks = ks ++ names := by
  induction names with
  | nil => intro ks _ _; simp
  | cons n rest ih =>
    intro ks hnd hfresh
    simp only [List.nodup_cons] at hnd
    have hn : ks.contains n = false := hfresh n (List.mem_cons_self _ _)
    simp only [List.foldl_cons, appendNewKey, hn, Bool.false_eq_true, if_false]
    rw [ih (ks ++ [n]) hnd.2]
    · simp
    · intro m hm
      have h1 : ks.contains m = false := hfresh m (List.mem_cons_of_mem _ hm)
      have h2 : m ≠ n := fun h => hnd.1 (h ▸ hm)
      rw [contains_append_str, h1]
      simp [List.contains_cons, h2]

/-- When every declared location is one of the three routed ones, the three
buckets exactly account for all parameters. -/
theorem filter3_length (ds : List PDecl)
    (h : ∀ d ∈ ds, d.ploc = "path" ∨ d.ploc = "query" ∨ d.ploc = "header") :
    (ds.filter (fun d => d.ploc == "path")).length
      + (ds.filter (fun d => d.ploc == "query")).length
      + (ds.filter (fun d => d.ploc == "header")).length = ds.length := by
  induction ds with
  | nil => rfl
  | cons d rest ih =>
    have hrest := ih (fun x hx => h x (List.mem_cons_of_mem _ hx))
    rcases h d (List.mem_cons_self _ _) with hl | hl | hl <;>
      simp [List.filter_cons, hl] <;> omega

/-- The tool-generation loop body for an operation with no JSON request body:
the Routing Record's buckets and the tool's schema are exactly the parameter
loop's output, with empty body routing, and `required` is included (as the
de-duplicated list) only when non-empty. -/
theorem genToolForOp_nobody (spec : Json) (f : Nat) (pathStr method : String)
    (pathItem op : Json) (ds : List PDecl)
    (hf : List.Forall₂ (paramOK spec f) (paramsOfOp pathItem op) ds)
    (hnb : jsTruthy (bodyRawOf op) = false) :
    ∃ acc' : ParamAcc,
      acc'.pathP = (ds.filter (fun d => d.ploc == "path")).map PDecl.pname
      ∧ acc'.queryP = (ds.filter (fun d => d.ploc == "query")).map PDecl.pname
      ∧ acc'.headerP = (ds.filter (fun d => d.ploc == "header")).map PDecl.pname
      ∧ acc'.required = (ds.filter PDecl.preq).map (fun d => Json.str d.pname)
      ∧ keysF acc'.props = (ds.map PDecl.pname).foldl appendNewKey []
      ∧ genToolForOp spec f pathStr method pathItem op
          = some ({ name := (if jsTruthy (jsGet op "operationId")
                             then jsToString (jsGet op "operationId")
                             else synthOpId method pathStr),
                    description := descrOf op method pathStr,
                    inputSchema := Json.obj
                      ([("type", Json.str "object"), ("properties", Json.obj acc'.props)]
                        ++ (if acc'.required.length > 0
                            then [("required",
                                   Json.arr (dedupFirstBy sameValueZero acc'.required))]
                            else [])) },
                  { method := method, path := pathStr, pathParams := acc'.pathP,
                    queryParams := acc'.queryP, headerParams := acc'.headerP,
                    bodyParams := [], isBodyFlattened := false }) := by
  obtain ⟨acc', heq, h1, h2, h3, h4, h5⟩ :=
    processParams_chara spec f (paramsOfOp pathItem op) ds initParamAcc hf
  refine ⟨acc', by simpa [initParamAcc] using h1, by simpa [initParamAcc] using h2,
    by simpa [initParamAcc] using h3, by simpa [initParamAcc] using h4,
    by simpa [initParamAcc, keysF] using h5, ?_⟩
  unfold genToolForOp
  dsimp only
  rw [show processParams spec f initParamAcc
      (jsArrElems (jsGet pathItem "parameters") ++ jsArrElems (jsGet op "parameters"))
      = some acc' from heq]
  dsimp only
  unfold processBody
  dsimp only
  rw [show jsTruthy (jsGet (jsGet (jsGet (jsGet op "requestBody") "content")
      "application/json") "schema") = false from hnb]
  simp only [Bool.false_eq_true, if_false]

/-- C2 (amended): for an operation with `N` declared parameters with pairwise
DISTINCT names in locations path/query/header and no request body, the
generated tool's input schema has exactly those `N` property keys, in
declaration order, and the Routing Record buckets partition the names by
declared location: the three buckets' sizes sum to `N`, no name lies in two
buckets, and every declared name lies in some bucket.  (Without the
distinctness proviso the partition fails — see the counterexample: the same
name declared in two locations is routed in BOTH buckets.) -/
theorem claim_C2_amended :
    ∀ (spec : Json) (f : Nat) (pathStr method : String) (pathItem op : Json)
      (ds : List PDecl) (tool : McpTool) (meta : ToolMeta),
    List.Forall₂ (paramOK spec f) (paramsOfOp pathItem op) ds →
    (ds.map PDecl.pname).Nodup →
    (∀ d ∈ ds, d.ploc = "path" ∨ d.ploc = "query" ∨ d.ploc = "header") →
    jsTruthy (bodyRawOf op) = false →
    genToolForOp spec f pathStr method pathItem op = some (tool, meta) →
    propKeysOfTool tool = ds.map PDecl.pname ∧
    meta.pathParams = (ds.filter (fun d => d.ploc == "path")).map PDecl.pname ∧
    meta.queryParams = (ds.filter (fun d => d.ploc == "query")).map PDecl.pname ∧
    meta.headerParams = (ds.filter (fun d => d.ploc == "header")).map PDecl.pname ∧
    meta.pathParams.length + meta.queryParams.length + meta.headerParams.length = ds.length ∧
    (∀ n, n ∈ meta.pathParams → n ∈ meta.queryParams → False) ∧
    (∀ n, n ∈ meta.pathParams → n ∈ meta.headerParams → False) ∧
    (∀ n, n ∈ meta.queryParams → n ∈ meta.headerParams → False) ∧
    (∀ d ∈ ds, d.pname ∈ meta.pathParams ∨ d.pname ∈ meta.queryParams
      ∨ d.pname ∈ meta.headerParams) := by
  intro spec f pathStr method pathItem op ds tool meta hf hnd hlocs hnb hE
  obtain ⟨acc', h1, h2, h3, h4, h5, hgen⟩ :=
    genToolForOp_nobody spec f pathStr method pathItem op ds hf hnb
  have hTM := Option.some.inj (hE.symm.trans hgen)
  have hTool := congrArg Prod.fst hTM
  have hMeta := congrArg Prod.snd hTM
  simp only at hTool hMeta
  have hinj : ∀ x ∈ ds, ∀ y ∈ ds, x.pname = y.pname → x = y :=
    fun x hx y hy hxy => List.inj_on_of_nodup_map hnd hx hy hxy
  have hdisj : ∀ (l1 l2 : String) (n : String), l1 ≠ l2 →
      n ∈ (ds.filter (fun d => d.ploc == l1)).map PDecl.pname →
      n ∈ (ds.filter (fun d => d.ploc == l2)).map PDecl.pname → False := by
    intro l1 l2 n hne hn1 hn2
    obtain ⟨d1, hd1, hd1n⟩ := List.mem_map.mp hn1
    obtain ⟨d2, hd2, hd2n⟩ := List.mem_map.mp hn2
    obtain ⟨hd1m, hd1l⟩ := List.mem_filter.mp hd1
    obtain ⟨hd2m, hd2l⟩ := List.mem_filter.mp hd2
    have hd12 : d1 = d2 := hinj d1 hd1m d2 hd2m (hd1n.trans hd2n.symm)
    apply hne
    have e1 : d1.ploc = l1 := by simpa using hd1l
    have e2 : d2.ploc = l2 := by simpa using hd2l
    rw [← e1, hd12, e2]
  refine ⟨?_, ?_, ?_, ?_, ?_, ?_, ?_, ?_, ?_⟩
  · have hkeys : propKeysOfTool tool = keysF acc'.props := by
      rw [hTool]
      rfl
    rw [hkeys, h5]
    rw [foldl_appendNewKey_nodup (ds.map PDecl.pname) [] hnd (fun n _ => rfl)]
    simp
  · rw [hMeta]
    exact h1
  · rw [hMeta]
    exact h2
  · rw [hMeta]
    exact h3
  · rw [hMeta]
    simp only [h1, h2, h3, List.length_map]
    exact filter3_length ds hlocs
  · intro n hp hq
    rw [hMeta] at hp hq
    rw [h1] at hp
    rw [h2] at hq
    exact hdisj "path" "query" n (by decide) hp hq
  · intro n hp hh
    rw [hMeta] at hp hh
    rw [h1] at hp
    rw [h3] at hh
    exact hdisj "path" "header" n (by decide) hp hh
  · intro n hq hh
    rw [hMeta] at hq hh
    rw [h2] at hq
    rw [h3] at hh
    exact hdisj "query" "header" n (by decide) hq hh
  · intro d hd
    rw [hMeta]
    rcases hlocs d hd with hl | hl | hl
    · refine Or.inl ?_
      rw [h1]
      exact List.mem_map.mpr ⟨d, List.mem_filter.mpr ⟨hd, by simp [hl]⟩, rfl⟩
    · refine Or.inr (Or.inl ?_)
      rw [h2]
      exact List.mem_map.mpr ⟨d, List.mem_filter.mpr ⟨hd, by simp [hl]⟩, rfl⟩
    · refine Or.inr (Or.inr ?_)
      rw [h3]
      exact List.mem_map.mpr ⟨d, List.mem_filter.mpr ⟨hd, by simp [hl]⟩, rfl⟩

/-- C2 counterexample: the operation `c2op` declares the SAME name `x` once in
`path` and once in `query`.  The code routes `x` into BOTH buckets
(`pathParams = ["x"]` and `queryParams = ["x"]`), so the buckets do not
partition the names, and the schema has one property for two declared
parameters. -/
theorem claim_C2_counterexample : c2outcome = some (["x"], ["x"], ["x"]) := rfl

/-- The three parameters of `wGenOp`, resolved to their declarations. -/
theorem wGenOp_paramsOK : List.Forall₂ (paramOK (Json.obj []) 2)
    (paramsOfOp (Json.obj []) wGenOp)
    [⟨"id", "path", true⟩, ⟨"q", "query", false⟩, ⟨"h", "header", true⟩] :=
  List.Forall₂.cons ⟨pNamed "id" "path" true, rfl, rfl, rfl, rfl,
      ⟨Json.obj [("type", Json.str "string")], rfl⟩⟩
    (List.Forall₂.cons ⟨pNamed "q" "query" false, rfl, rfl, rfl, rfl,
        ⟨Json.obj [("type", Json.str "string")], rfl⟩⟩
      (List.Forall₂.cons ⟨pNamed "h" "header" true, rfl, rfl, rfl, rfl,
          ⟨Json.obj [("type", Json.str "string")], rfl⟩⟩ List.Forall₂.nil))

/-- C2 witness: the amended theorem applied to `wGenOp` (three distinct names,
one per location): three schema properties and a clean bucket partition. -/
theorem claim_C2_witness :
    (genToolForOp (Json.obj []) 2 "/items" "get" (Json.obj []) wGenOp).map
        (fun r => (propKeysOfTool r.1, r.2.pathParams, r.2.queryParams, r.2.headerParams))
      = some (["id", "q", "h"], ["id"], ["q"], ["h"]) := by
  cases hE : genToolForOp (Json.obj []) 2 "/items" "get" (Json.obj []) wGenOp with
  | none =>
    have hs : (genToolForOp (Json.obj []) 2 "/items" "get" (Json.obj []) wGenOp).isSome
        = true := rfl
    rw [hE] at hs
    cases hs
  | some r =>
    obtain ⟨t, m⟩ := r
    have h := claim_C2_amended (Json.obj []) 2 "/items" "get" (Json.obj []) wGenOp
      [⟨"id", "path", true⟩, ⟨"q", "query", false⟩, ⟨"h", "header", true⟩] t m
      wGenOp_paramsOK (by decide) (by decide) rfl hE
    simp only [Option.map_some']
    rw [h.1, h.2.1, h.2.2.1, h.2.2.2.1]
    rfl

/-- C5: for an operation with no request body, the generated tool's `required`
list is present exactly when some parameter is marked required, and then it
is the de-duplicated list of the names actually marked required (same
membership, no `SameValueZero` duplicates); when no name is required the
`required` key is omitted entirely. -/
theorem claim_C5_required :
    ∀ (spec : Json) (f : Nat) (pathStr method : String) (pathItem op : Json)
      (ds : List PDecl) (tool : McpTool) (meta : ToolMeta),
    List.Forall₂ (paramOK spec f) (paramsOfOp pathItem op) ds →
    jsTruthy (bodyRawOf op) = false →
    genToolForOp spec f pathStr method pathItem op = some (tool, meta) →
    (((ds.filter PDecl.preq).map (fun d => Json.str d.pname)) = [] →
        hasKeyJ tool.inputSchema "required" = false) ∧
    (((ds.filter PDecl.preq).map (fun d => Json.str d.pname)) ≠ [] →
      ∃ Q, jsGet tool.inputSchema "required" = Json.arr Q
        ∧ (∀ v, v ∈ Q ↔ v ∈ (ds.filter PDecl.preq).map (fun d => Json.str d.pname))
        ∧ Q.Pairwise (fun a b => sameValueZero a b = false)) := by
  intro spec f pathStr method pathItem op ds tool meta hf hnb hE
  obtain ⟨acc', h1, h2, h3, h4, h5, hgen⟩ :=
    genToolForOp_nobody spec f pathStr method pathItem op ds hf hnb
  have hTool := congrArg Prod.fst (Option.some.inj (hE.symm.trans hgen))
  simp only at hTool
  constructor
  · intro hR
    have hreq0 : acc'.required = [] := by rw [h4, hR]
    rw [hTool, hreq0]
    rfl
  · intro hR
    have hlen : acc'.required.length > 0 := by
      rw [h4]
      exact List.length_pos.mpr hR
    refine ⟨dedupFirstBy sameValueZero acc'.required, ?_, ?_, ?_⟩
    · rw [hTool]
      show jsGet (Json.obj ([("type", Json.str "object"), ("properties", Json.obj acc'.props)]
        ++ (if acc'.required.length > 0
            then [("required", Json.arr (dedupFirstBy sameValueZero acc'.required))]
            else []))) "required" = _
      rw [if_pos hlen]
      rfl
    · intro v
      rw [mem_dedupFirstBy_svz, h4]
    · exact pairwise_dedupFirstBy_svz _

/-- C5 witness: `wGenOp` marks `id` and `h` required (and `q` optional); the
generated schema's `required` is exactly `["id", "h"]`, present, and
duplicate-free. -/
theorem claim_C5_witness :
    jsTruthy (bodyRawOf wGenOp) = false ∧
    (genToolForOp (Json.obj []) 2 "/items" "get" (Json.obj []) wGenOp).map
        (fun r => (hasKeyJ r.1.inputSchema "required", jsGet r.1.inputSchema "required"))
      = some (true, Json.arr [Json.str "id", Json.str "h"]) ∧
    sameValueZero (Json.str "id") (Json.str "h") = false := by
  refine ⟨rfl, ?_, rfl⟩
  cases hE : genToolForOp (Json.obj []) 2 "/items" "get" (Json.obj []) wGenOp with
  | none =>
    have hs : (genToolForOp (Json.obj []) 2 "/items" "get" (Json.obj []) wGenOp).isSome
        = true := rfl
    rw [hE] at hs
    cases hs
  | some r =>
    obtain ⟨t, m⟩ := r
    have h := claim_C5_required (Json.obj []) 2 "/items" "get" (Json.obj []) wGenOp
      [⟨"id", "path", true⟩, ⟨"q", "query", false⟩, ⟨"h", "header", true⟩] t m
      wGenOp_paramsOK rfl hE
    obtain ⟨Q, hQ, hmem, hpw⟩ := h.2
      (by intro hcon; exact absurd (congrArg List.length hcon) (by decide))
    have hproj : (genToolForOp (Json.obj []) 2 "/items" "get" (Json.obj []) wGenOp).map
        (fun r => (hasKeyJ r.1.inputSchema "required", jsGet r.1.inputSchema "required"))
        = some (true, Json.arr [Json.str "id", Json.str "h"]) := rfl
    rw [hE] at hproj
    exact hproj

/-! ### C4: the normalization allow-list invariant -/

theorem isUndef_true_eq {j : Json} (h : j.isUndef = true) : j = .undef := by
  cases j <;> first | rfl | exact Bool.noConfusion h

theorem mcpAllowedB_not_truthy (g : Nat) (j : Json) (h : jsTruthy j = false) :
    mcpAllowedB g j = true := by
  cases g with
  | zero => rfl
  | succ g =>
    cases j with
    | obj fs => exact absurd h (by simp [jsTruthy])
    | arr xs => exact absurd h (by simp [jsTruthy])
    | undef => rfl
    | null => rfl
    | bool b => rfl
    | num n => rfl
    | str s => rfl

theorem mcpAllowedB_obj (g : Nat) (fs : List (String × Json)) :
    mcpAllowedB (g + 1) (Json.obj fs) =
      ((keysF fs).all (fun k => allowedKeysList.contains k)
      && typeValueOk (jsGetF fs "type")
      && propsCheckB g (jsGetF fs "properties")
      && mcpAllowedB g (jsGetF fs "items")
      && compCheckB g (jsGetF fs "anyOf")
      && compCheckB g (jsGetF fs "oneOf")
      && compCheckB g (jsGetF fs "allOf")) := rfl

theorem mem_objSetF (fs : List (String × Json)) (k : String) (v : Json)
    (kv : String × Json) (h : kv ∈ objSetF fs k v) : kv = (k, v) ∨ kv ∈ fs := by
  induction fs with
  | nil =>
    simp only [objSetF, List.mem_singleton] at h
    exact Or.inl h
  | cons p t ih =>
    obtain ⟨k', v'⟩ := p
    by_cases hk : k' = k
    · simp only [objSetF, if_pos hk] at h
      rcases List.mem_cons.mp h with h | h
      · exact Or.inl h
      · exact Or.inr (List.mem_cons_of_mem _ h)
    · simp only [objSetF, if_neg hk] at h
      rcases List.mem_cons.mp h with h | h
      · exact Or.inr (h ▸ List.mem_cons_self _ _)
      · rcases ih h with h2 | h2
        · exact Or.inl h2
        · exact Or.inr (List.mem_cons_of_mem _ h2)

theorem mem_keysF_objSetF (fs : List (String × Json)) (k : String) (v : Json)
    (x : String) (h : x ∈ keysF (objSetF fs k v)) : x ∈ keysF fs ∨ x = k := by
  rw [keysF_objSetF] at h
  unfold appendNewKey at h
  by_cases hc : (keysF fs).contains k = true
  · rw [if_pos hc] at h
    exact Or.inl h
  · rw [if_neg hc] at h
    rcases List.mem_append.mp h with h | h
    · exact Or.inl h
    · exact Or.inr (List.mem_singleton.mp h)

theorem keys_allowed_objSetF (fs : List (String × Json)) (k : String) (v : Json)
    (hk : allowedKeysList.contains k = true)
    (h : ∀ x ∈ keysF fs, allowedKeysList.contains x = true) :
    ∀ x ∈ keysF (objSetF fs k v), allowedKeysList.contains x = true := by
  intro x hx
  rcases mem_keysF_objSetF fs k v x hx with h2 | h2
  · exact h x h2
  · rw [h2]
    exact hk

theorem keys_allowed_eraseKeyF (fs : List (String × Json)) (k : String)
    (h : ∀ x ∈ keysF fs, allowedKeysList.contains x = true) :
    ∀ x ∈ keysF (eraseKeyF fs k), allowedKeysList.contains x = true := by
  intro x hx
  exact h x (mem_keysF_eraseKeyF fs x k hx)

theorem filterFold_keys_allowed (L : List (String × Json)) :
    ∀ acc, (∀ x ∈ keysF acc, allowedKeysList.contains x = true) →
      ∀ x ∈ keysF (L.foldl (fun acc kv =>
          if allowedKeysList.contains kv.1 then objSetF acc kv.1 kv.2 else acc) acc),
        allowedKeysList.contains x = true := by
  induction L with
  | nil => intro acc hacc; exact hacc
  | cons p t ih =>
    intro acc hacc
    simp only [List.foldl_cons]
    apply ih
    by_cases hp : allowedKeysList.contains p.1 = true
    · rw [if_pos hp]
      exact keys_allowed_objSetF acc p.1 p.2 hp hacc
    · rw [if_neg hp]
      exact hacc

theorem normFilterStage_keys (fs : List (String × Json)) :
    ∀ x ∈ keysF (normFilterStage fs), allowedKeysList.contains x = true := by
  unfold normFilterStage
  exact filterFold_keys_allowed fs [] (fun x hx => absurd hx (by simp [keysF]))

theorem normTypeStage_keys (r : List (String × Json))
    (h : ∀ x ∈ keysF r, allowedKeysList.contains x = true) :
    ∀ x ∈ keysF (normTypeStage r), allowedKeysList.contains x = true := by
  unfold normTypeStage
  dsimp only
  by_cases hu : (jsGetF r "type").isUndef = true
  · rw [if_pos hu]
    exact h
  · rw [if_neg hu]
    cases hm : jsGetF r "type" with
    | arr ts =>
      dsimp only
      by_cases he : (ts.filter isValidTypeJ).isEmpty = true
      · rw [if_pos he]
        exact keys_allowed_eraseKeyF r "type" h
      · rw [if_neg he]
        exact keys_allowed_objSetF r "type" _ (by decide) h
    | str s =>
      by_cases hv : isValidTypeJ (Json.str s) = true
      · rw [if_pos hv]
        exact h
      · rw [if_neg hv]
        exact keys_allowed_eraseKeyF r "type" h
    | undef =>
      rw [if_neg (fun hh => Bool.noConfusion hh)]
      exact keys_allowed_eraseKeyF r "type" h
    | null =>
      rw [if_neg (fun hh => Bool.noConfusion hh)]
      exact keys_allowed_eraseKeyF r "type" h
    | bool b =>
      rw [if_neg (fun hh => Bool.noConfusion hh)]
      exact keys_allowed_eraseKeyF r "type" h
    | num n =>
      rw [if_neg (fun hh => Bool.noConfusion hh)]
      exact keys_allowed_eraseKeyF r "type" h
    | obj pf =>
      rw [if_neg (fun hh => Bool.noConfusion hh)]
      exact keys_allowed_eraseKeyF r "type" h

theorem normTypeStage_type_ok (r : List (String × Json)) :
    typeValueOk (jsGetF (normTypeStage r) "type") = true := by
  unfold normTypeStage
  dsimp only
  by_cases hu : (jsGetF r "type").isUndef = true
  · rw [if_pos hu, isUndef_true_eq hu]
    rfl
  · rw [if_neg hu]
    cases hm : jsGetF r "type" with
    | arr ts =>
      dsimp only
      by_cases he : (ts.filter isValidTypeJ).isEmpty = true
      · rw [if_pos he, jsGetF_eraseKeyF_self]
        rfl
      · rw [if_neg he, jsGetF_objSetF_self]
        exact List.all_eq_true.mpr (fun y hy => (List.mem_filter.mp hy).2)
    | str s =>
      by_cases hv : isValidTypeJ (Json.str s) = true
      · rw [if_pos hv, hm]
        exact hv
      · rw [if_neg hv, jsGetF_eraseKeyF_self]
        rfl
    | undef =>
      rw [if_neg (fun hh => Bool.noConfusion hh), jsGetF_eraseKeyF_self]
      rfl
    | null =>
      rw [if_neg (fun hh => Bool.noConfusion hh), jsGetF_eraseKeyF_self]
      rfl
    | bool b =>
      rw [if_neg (fun hh => Bool.noConfusion hh), jsGetF_eraseKeyF_self]
      rfl
    | num n =>
      rw [if_neg (fun hh => Bool.noConfusion hh), jsGetF_eraseKeyF_self]
      rfl
    | obj pf =>
      rw [if_neg (fun hh => Bool.noConfusion hh), jsGetF_eraseKeyF_self]
      rfl

theorem normFormatStage_get_ne (r : List (String × Json)) (k : String)
    (h : ¬("format" = k)) : jsGetF (normFormatStage r) k = jsGetF r k := by
  unfold normFormatStage
  cases hm : jsGetF r "format" with
  | str s =>
    dsimp only
    by_cases hf : formatKeepList.contains s = true
    · rw [if_pos hf]
    · rw [if_neg hf]
      exact jsGetF_eraseKeyF_ne r k "format" h
  | undef => rfl
  | null => rfl
  | bool b => rfl
  | num n => rfl
  | arr xs => rfl
  | obj o => rfl

theorem normFormatStage_keys (r : List (String × Json))
    (h : ∀ x ∈ keysF r, allowedKeysList.contains x = true) :
    ∀ x ∈ keysF (normFormatStage r), allowedKeysList.contains x = true := by
  unfold normFormatStage
  cases hm : jsGetF r "format" with
  | str s =>
    dsimp only
    by_cases hf : formatKeepList.contains s = true
    · rw [if_pos hf]
      exact h
    · rw [if_neg hf]
      exact keys_allowed_eraseKeyF r "format" h
  | undef => exact h
  | null => exact h
  | bool b => exact h
  | num n => exact h
  | arr xs => exact h
  | obj o => exact h

theorem normRequiredStage_get_ne (r : List (String × Json)) (k : String)
    (h : ¬("required" = k)) : jsGetF (normRequiredStage r) k = jsGetF r k := by
  unfold normRequiredStage
  dsimp only
  by_cases ht : jsTruthy (jsGetF r "required") = true
  · rw [if_pos ht]
    cases hm : jsGetF r "required" with
    | arr es =>
      dsimp only
      by_cases he : (es.filter Json.isStr).isEmpty = true
      · rw [if_pos he]
        exact jsGetF_eraseKeyF_ne r k "required" h
      · rw [if_neg he]
        exact jsGetF_objSetF_ne r k "required" _ h
    | undef => exact jsGetF_eraseKeyF_ne r k "required" h
    | null => exact jsGetF_eraseKeyF_ne r k "required" h
    | bool b => exact jsGetF_eraseKeyF_ne r k "required" h
    | num n => exact jsGetF_eraseKeyF_ne r k "required" h
    | str s => exact jsGetF_eraseKeyF_ne r k "required" h
    | obj o => exact jsGetF_eraseKeyF_ne r k "required" h
  · rw [if_neg ht]

theorem normRequiredStage_keys (r : List (String × Json))
    (h : ∀ x ∈ keysF r, allowedKeysList.contains x = true) :
    ∀ x ∈ keysF (normRequiredStage r), allowedKeysList.contains x = true := by
  unfold normRequiredStage
  dsimp only
  by_cases ht : jsTruthy (jsGetF r "required") = true
  · rw [if_pos ht]
    cases hm : jsGetF r "required" with
    | arr es =>
      dsimp only
      by_cases he : (es.filter Json.isStr).isEmpty = true
      · rw [if_pos he]
        exact keys_allowed_eraseKeyF r "required" h
      · rw [if_neg he]
        exact keys_allowed_objSetF r "required" _ (by decide) h
    | undef => exact keys_allowed_eraseKeyF r "required" h
    | null => exact keys_allowed_eraseKeyF r "required" h
    | bool b => exact keys_allowed_eraseKeyF r "required" h
    | num n => exact keys_allowed_eraseKeyF r "required" h
    | str s => exact keys_allowed_eraseKeyF r "required" h
    | obj o => exact keys_allowed_eraseKeyF r "required" h
  · rw [if_neg ht]
    exact h

theorem propsFold_mem_Q (g : Nat) (rec1 : Json → Json)
    (hQ : ∀ v, mcpAllowedB g (rec1 v) = true) (L : List (String × Json)) :
    ∀ acc, (∀ kv ∈ acc, mcpAllowedB g kv.2 = true) →
      ∀ kv ∈ L.foldl (fun acc kv =>
          if jsTruthy (rec1 kv.2) then objSetF acc kv.1 (rec1 kv.2) else acc) acc,
        mcpAllowedB g kv.2 = true := by
  induction L with
  | nil => intro acc hacc kv hkv; exact hacc kv hkv
  | cons p t ih =>
    intro acc hacc kv hkv
    simp only [List.foldl_cons] at hkv
    refine ih _ ?_ kv hkv
    intro kv' hkv'
    by_cases htr : jsTruthy (rec1 p.2) = true
    · rw [if_pos htr] at hkv'
      rcases mem_objSetF _ _ _ _ hkv' with h2 | h2
      · rw [h2]
        exact hQ p.2
      · exact hacc kv' h2
    · rw [if_neg htr] at hkv'
      exact hacc kv' hkv'

theorem normPropsStage_get_ne (rec1 : Json → Json) (r : List (String × Json))
    (k : String) (h : ¬("properties" = k)) :
    jsGetF (normPropsStage rec1 r) k = jsGetF r k := by
  unfold normPropsStage
  dsimp only
  by_cases hg : (jsTruthy (jsGetF r "properties")
      && isObjectTypeof (jsGetF r "properties")) = true
  · rw [if_pos hg]
    by_cases he : ((entriesOf (jsGetF r "properties")).foldl (fun acc kv =>
        if jsTruthy (rec1 kv.2) then objSetF acc kv.1 (rec1 kv.2) else acc)
        []).isEmpty = true
    · rw [if_pos he, jsGetF_eraseKeyF_ne _ k "properties" h,
        jsGetF_objSetF_ne r k "properties" _ h]
    · rw [if_neg he]
      exact jsGetF_objSetF_ne r k "properties" _ h
  · rw [if_neg hg]

theorem normPropsStage_keys (rec1 : Json → Json) (r : List (String × Json))
    (h : ∀ x ∈ keysF r, allowedKeysList.contains x = true) :
    ∀ x ∈ keysF (normPropsStage rec1 r), allowedKeysList.contains x = true := by
  unfold normPropsStage
  dsimp only
  by_cases hg : (jsTruthy (jsGetF r "properties")
      && isObjectTypeof (jsGetF r "properties")) = true
  · rw [if_pos hg]
    by_cases he : ((entriesOf (jsGetF r "properties")).foldl (fun acc kv =>
        if jsTruthy (rec1 kv.2) then objSetF acc kv.1 (rec1 kv.2) else acc)
        []).isEmpty = true
    · rw [if_pos he]
      exact keys_allowed_eraseKeyF _ "properties"
        (keys_allowed_objSetF r "properties" _ (by decide) h)
    · rw [if_neg he]
      exact keys_allowed_objSetF r "properties" _ (by decide) h
  · rw [if_neg hg]
    exact h

theorem normPropsStage_props_ok (g : Nat) (rec1 : Json → Json)
    (hQ : ∀ v, mcpAllowedB g (rec1 v) = true) (r : List (String × Json)) :
    propsCheckB g (jsGetF (normPropsStage rec1 r) "properties") = true := by
  unfold normPropsStage
  dsimp only
  by_cases hg : (jsTruthy (jsGetF r "properties")
      && isObjectTypeof (jsGetF r "properties")) = true
  · rw [if_pos hg]
    by_cases he : ((entriesOf (jsGetF r "properties")).foldl (fun acc kv =>
        if jsTruthy (rec1 kv.2) then objSetF acc kv.1 (rec1 kv.2) else acc)
        []).isEmpty = true
    · rw [if_pos he, jsGetF_eraseKeyF_self]
      rfl
    · rw [if_neg he, jsGetF_objSetF_self]
      exact List.all_eq_true.mpr (fun kv hkv =>
        propsFold_mem_Q g rec1 hQ _ [] (fun kv' h' => absurd h' (by simp)) kv hkv)
  · rw [if_neg hg]
    cases hm : jsGetF r "properties" with
    | obj pf =>
      exfalso
      rw [hm] at hg
      exact hg rfl
    | undef => rfl
    | null => rfl
    | bool b => rfl
    | num n => rfl
    | str s => rfl
    | arr xs => rfl

theorem normItemsStage_get_ne (rec1 : Json → Json) (r : List (String × Json))
    (k : String) (h : ¬("items" = k)) :
    jsGetF (normItemsStage rec1 r) k = jsGetF r k := by
  unfold normItemsStage
  dsimp only
  by_cases ht : jsTruthy (jsGetF r "items") = true
  · rw [if_pos ht]
    by_cases hu : (rec1 (jsGetF r "items")).isUndef = true
    · rw [if_pos hu, jsGetF_eraseKeyF_ne _ k "items" h,
        jsGetF_objSetF_ne r k "items" _ h]
    · rw [if_neg hu]
      exact jsGetF_objSetF_ne r k "items" _ h
  · rw [if_neg ht]

theorem normItemsStage_keys (rec1 : Json → Json) (r : List (String × Json))
    (h : ∀ x ∈ keysF r, allowedKeysList.contains x = true) :
    ∀ x ∈ keysF (normItemsStage rec1 r), allowedKeysList.contains x = true := by
  unfold normItemsStage
  dsimp only
  by_cases ht : jsTruthy (jsGetF r "items") = true
  · rw [if_pos ht]
    by_cases hu : (rec1 (jsGetF r "items")).isUndef = true
    · rw [if_pos hu]
      exact keys_allowed_eraseKeyF _ "items"
        (keys_allowed_objSetF r "items" _ (by decide) h)
    · rw [if_neg hu]
      exact keys_allowed_objSetF r "items" _ (by decide) h
  · rw [if_neg ht]
    exact h

theorem normItemsStage_items_ok (g : Nat) (rec1 : Json → Json)
    (hQ : ∀ v, mcpAllowedB g (rec1 v) = true) (r : List (String × Json)) :
    mcpAllowedB g (jsGetF (normItemsStage rec1 r) "items") = true := by
  unfold normItemsStage
  dsimp only
  by_cases ht : jsTruthy (jsGetF r "items") = true
  · rw [if_pos ht]
    by_cases hu : (rec1 (jsGetF r "items")).isUndef = true
    · rw [if_pos hu, jsGetF_eraseKeyF_self]
      exact mcpAllowedB_not_truthy g _ rfl
    · rw [if_neg hu, jsGetF_objSetF_self]
      exact hQ _
  · rw [if_neg ht]
    exact mcpAllowedB_not_truthy g _ (Bool.eq_false_iff.mpr ht)

theorem normCompsStage_eq_compSteps (rec1 : Json → Json) (r : List (String × Json)) :
    normCompsStage rec1 r =
      compStep rec1 (compStep rec1 (compStep rec1 r "anyOf") "oneOf") "allOf" := rfl

theorem compStep_get_ne (rec1 : Json → Json) (c : List (String × Json))
    (k k' : String) (h : ¬(k = k')) :
    jsGetF (compStep rec1 c k) k' = jsGetF c k' := by
  unfold compStep
  cases hm : jsGetF c k with
  | arr xs =>
    dsimp only
    by_cases he : ((xs.map rec1).filter jsTruthy).isEmpty = true
    · rw [if_pos he, jsGetF_eraseKeyF_ne _ k' k h, jsGetF_objSetF_ne c k' k _ h]
    · rw [if_neg he]
      exact jsGetF_objSetF_ne c k' k _ h
  | undef => rfl
  | null => rfl
  | bool b => rfl
  | num n => rfl
  | str s => rfl
  | obj o => rfl

theorem compStep_keys (rec1 : Json → Json) (c : List (String × Json)) (k : String)
    (hk : allowedKeysList.contains k = true)
    (h : ∀ x ∈ keysF c, allowedKeysList.contains x = true) :
    ∀ x ∈ keysF (compStep rec1 c k), allowedKeysList.contains x = true := by
  unfold compStep
  cases hm : jsGetF c k with
  | arr xs =>
    dsimp only
    by_cases he : ((xs.map rec1).filter jsTruthy).isEmpty = true
    · rw [if_pos he]
      exact keys_allowed_eraseKeyF _ k (keys_allowed_objSetF c k _ hk h)
    · rw [if_neg he]
      exact keys_allowed_objSetF c k _ hk h
  | undef => exact h
  | null => exact h
  | bool b => exact h
  | num n => exact h
  | str s => exact h
  | obj o => exact h

theorem compStep_ok (g : Nat) (rec1 : Json → Json)
    (hQ : ∀ v, mcpAllowedB g (rec1 v) = true) (c : List (String × Json)) (k : String) :
    compCheckB g (jsGetF (compStep rec1 c k) k) = true := by
  unfold compStep
  cases hm : jsGetF c k with
  | arr xs =>
    dsimp only
    by_cases he : ((xs.map rec1).filter jsTruthy).isEmpty = true
    · rw [if_pos he, jsGetF_eraseKeyF_self]
      rfl
    · rw [if_neg he, jsGetF_objSetF_self]
      exact List.all_eq_true.mpr (fun y hy => by
        obtain ⟨x, hx, rfl⟩ := List.mem_map.mp (List.mem_filter.mp hy).1
        exact hQ x)
  | undef => rw [hm]; rfl
  | null => rw [hm]; rfl
  | bool b => rw [hm]; rfl
  | num n => rw [hm]; rfl
  | str s => rw [hm]; rfl
  | obj o => rw [hm]; rfl

theorem normCompsStage_get_ne (rec1 : Json → Json) (r : List (String × Json))
    (k : String) (h1 : ¬("anyOf" = k)) (h2 : ¬("oneOf" = k)) (h3 : ¬("allOf" = k)) :
    jsGetF (normCompsStage rec1 r) k = jsGetF r k := by
  rw [normCompsStage_eq_compSteps, compStep_get_ne rec1 _ "allOf" k h3,
    compStep_get_ne rec1 _ "oneOf" k h2, compStep_get_ne rec1 _ "anyOf" k h1]

theorem normCompsStage_keys (rec1 : Json → Json) (r : List (String × Json))
    (h : ∀ x ∈ keysF r, allowedKeysList.contains x = true) :
    ∀ x ∈ keysF (normCompsStage rec1 r), allowedKeysList.contains x = true := by
  rw [normCompsStage_eq_compSteps]
  exact compStep_keys rec1 _ "allOf" (by decide)
    (compStep_keys rec1 _ "oneOf" (by decide)
      (compStep_keys rec1 _ "anyOf" (by decide) h))

theorem normEnumStage_get_ne (r : List (String × Json)) (k : String)
    (h : ¬("enum" = k)) : jsGetF (normEnumStage r) k = jsGetF r k := by
  unfold normEnumStage
  dsimp only
  by_cases ht : jsTruthy (jsGetF r "enum") = true
  · rw [if_pos ht]
    cases hm : jsGetF r "enum" with
    | arr es =>
      dsimp only
      by_cases he : (dedupFirstBy sameValueZero es).isEmpty = true
      · rw [if_pos he]
        exact jsGetF_eraseKeyF_ne r k "enum" h
      · rw [if_neg he]
        exact jsGetF_objSetF_ne r k "enum" _ h
    | undef => rfl
    | null => rfl
    | bool b => rfl
    | num n => rfl
    | str s => rfl
    | obj o => rfl
  · rw [if_neg ht]

theorem normEnumStage_keys (r : List (String × Json))
    (h : ∀ x ∈ keysF r, allowedKeysList.contains x = true) :
    ∀ x ∈ keysF (normEnumStage r), allowedKeysList.contains x = true := by
  unfold normEnumStage
  dsimp only
  by_cases ht : jsTruthy (jsGetF r "enum") = true
  · rw [if_pos ht]
    cases hm : jsGetF r "enum" with
    | arr es =>
      dsimp only
      by_cases he : (dedupFirstBy sameValueZero es).isEmpty = true
      · rw [if_pos he]
        exact keys_allowed_eraseKeyF r "enum" h
      · rw [if_neg he]
        exact keys_allowed_objSetF r "enum" _ (by decide) h
    | undef => exact h
    | null => exact h
    | bool b => exact h
    | num n => exact h
    | str s => exact h
    | obj o => exact h
  · rw [if_neg ht]
    exact h

theorem normFallbackStage_get_ne (r : List (String × Json)) (k : String)
    (h : ¬("type" = k)) : jsGetF (normFallbackStage r) k = jsGetF r k := by
  unfold normFallbackStage
  by_cases hc : (hasConstraintKeys.any fun k => !(jsGetF r k).isUndef) = true
  · rw [if_pos hc]
  · rw [if_neg hc]
    exact jsGetF_objSetF_ne r k "type" _ h

theorem normFallbackStage_keys (r : List (String × Json))
    (h : ∀ x ∈ keysF r, allowedKeysList.contains x = true) :
    ∀ x ∈ keysF (normFallbackStage r), allowedKeysList.contains x = true := by
  unfold normFallbackStage
  by_cases hc : (hasConstraintKeys.any fun k => !(jsGetF r k).isUndef) = true
  · rw [if_pos hc]
    exact h
  · rw [if_neg hc]
    exact keys_allowed_objSetF r "type" _ (by decide) h

theorem normFallbackStage_type_ok (r : List (String × Json))
    (h : typeValueOk (jsGetF r "type") = true) :
    typeValueOk (jsGetF (normFallbackStage r) "type") = true := by
  unfold normFallbackStage
  by_cases hc : (hasConstraintKeys.any fun k => !(jsGetF r k).isUndef) = true
  · rw [if_pos hc]
    exact h
  · rw [if_neg hc, jsGetF_objSetF_self]
    rfl

theorem stagePipeline_allowed (g : Nat) (rec1 : Json → Json)
    (hQ : ∀ v, mcpAllowedB g (rec1 v) = true) (fs : List (String × Json)) :
    mcpAllowedB (g + 1) (Json.obj (normFallbackStage (normEnumStage (normCompsStage rec1
      (normItemsStage rec1 (normPropsStage rec1 (normRequiredStage (normFormatStage
        (normTypeStage (normFilterStage fs)))))))))) = true := by
  rw [mcpAllowedB_obj]
  simp only [Bool.and_eq_true]
  refine ⟨⟨⟨⟨⟨⟨?_, ?_⟩, ?_⟩, ?_⟩, ?_⟩, ?_⟩, ?_⟩
  · rw [List.all_eq_true]
    exact normFallbackStage_keys _ (normEnumStage_keys _ (normCompsStage_keys rec1 _
      (normItemsStage_keys rec1 _ (normPropsStage_keys rec1 _ (normRequiredStage_keys _
        (normFormatStage_keys _ (normTypeStage_keys _ (normFilterStage_keys fs))))))))
  · refine normFallbackStage_type_ok _ ?_
    rw [normEnumStage_get_ne _ _ (by decide),
      normCompsStage_get_ne rec1 _ _ (by decide) (by decide) (by decide),
      normItemsStage_get_ne rec1 _ _ (by decide),
      normPropsStage_get_ne rec1 _ _ (by decide),
      normRequiredStage_get_ne _ _ (by decide),
      normFormatStage_get_ne _ _ (by decide)]
    exact normTypeStage_type_ok _
  · rw [normFallbackStage_get_ne _ _ (by decide),
      normEnumStage_get_ne _ _ (by decide),
      normCompsStage_get_ne rec1 _ _ (by decide) (by decide) (by decide),
      normItemsStage_get_ne rec1 _ _ (by decide)]
    exact normPropsStage_props_ok g rec1 hQ _
  · rw [normFallbackStage_get_ne _ _ (by decide),
      normEnumStage_get_ne _ _ (by decide),
      normCompsStage_get_ne rec1 _ _ (by decide) (by decide) (by decide)]
    exact normItemsStage_items_ok g rec1 hQ _
  · rw [normFallbackStage_get_ne _ _ (by decide),
      normEnumStage_get_ne _ _ (by decide), normCompsStage_eq_compSteps,
      compStep_get_ne rec1 _ "allOf" "anyOf" (by decide),
      compStep_get_ne rec1 _ "oneOf" "anyOf" (by decide)]
    exact compStep_ok g rec1 hQ _ "anyOf"
  · rw [normFallbackStage_get_ne _ _ (by decide),
      normEnumStage_get_ne _ _ (by decide), normCompsStage_eq_compSteps,
      compStep_get_ne rec1 _ "allOf" "oneOf" (by decide)]
    exact compStep_ok g rec1 hQ _ "oneOf"
  · rw [normFallbackStage_get_ne _ _ (by decide),
      normEnumStage_get_ne _ _ (by decide), normCompsStage_eq_compSteps]
    exact compStep_ok g rec1 hQ _ "allOf"

theorem normAllowed_aux : ∀ (g f : Nat) (j : Json),
    mcpAllowedB g (normalizeJsonSchemaForMCP f j) = true := by
  intro g
  induction g with
  | zero => intro f j; rfl
  | succ g ih =>
    intro f j
    cases f with
    | zero => rfl
    | succ f =>
      cases j with
      | undef => rfl
      | null => rfl
      | bool b => rfl
      | num n => rfl
      | str s => rfl
      | arr xs =>
        show (xs.map (normalizeJsonSchemaForMCP f)).all (mcpAllowedB g) = true
        exact List.all_eq_true.mpr (fun y hy => by
          obtain ⟨x, hx, rfl⟩ := List.mem_map.mp hy
          exact ih f x)
      | obj fs =>
        exact stagePipeline_allowed g
          (fun v => normalizeJsonSchemaForMCP f (sanitizeSchemaForMCP f v))
          (fun v => ih f (sanitizeSchemaForMCP f v)) fs

/-- C4 (amended): on every node the normalizer REBUILDS — the node itself and,
recursively, the values of `properties`, a normalized `items`, and the
elements of array-valued `anyOf`/`oneOf`/`allOf` — `normalize(sanitize(node))`
has only allow-listed keys and a `type` drawn from the valid-type set (at any
recursion depth `g` and any fuel `f`).  Nodes copied VERBATIM under other
allowed keywords (e.g. `additionalProperties`) are not rebuilt and can keep
arbitrary keys; the claim's unrestricted "every nested node reachable through
it" is refuted by the counterexample. -/
theorem claim_C4_amended : ∀ (g f : Nat) (j : Json),
    mcpAllowedB g (normalizeJsonSchemaForMCP f (sanitizeSchemaForMCP f j)) = true :=
  fun g f j => normAllowed_aux g f (sanitizeSchemaForMCP f j)

/-- C4 counterexample: a schema whose `additionalProperties` value has the key
`foo`.  `additionalProperties` is allow-listed, so the node below it is copied
verbatim by `normalize(sanitize(.))`, and the nested key `foo` — reachable
through the result and outside the allow-list — survives, refuting the claim
as stated. -/
theorem claim_C4_counterexample :
    jsGet (normalizeJsonSchemaForMCP 5 (sanitizeSchemaForMCP 5 c4Node))
        "additionalProperties" = Json.obj [("foo", Json.num (.fin 1))]
    ∧ allowedKeysList.contains "foo" = false := ⟨rfl, rfl⟩
